import Mathlib

/-!
Verification development for the audit-log canonicalization pipeline
(`main.py` together with the modules under `data_processing/`).

The pipeline operates on a pandas DataFrame whose rows we model by the
record `Row` below.  Every stage of the pipeline is translated into a
Lean function over `List Row`; pandas primitives are modelled as
follows:

* string comparison and sorting is Unicode code-point lexicographic in
  Python; we realise it through the lexicographic linear order on
  `List Char` applied to `String.data`, which is the identical order;
* `DataFrame.sort_values` over a key tuple whose final component is the
  distinct original row position yields the unique order sorted by the
  full key, which we realise by `List.insertionSort`;
* `groupby` (with its default `sort=True`) and `sorted(...)` enumerate
  distinct keys in ascending lexicographic order;
* `drop_duplicates(keep=first)` keeps the first occurrence of each key.
-/

/-- One DataFrame row of the pipeline.  The first six fields are the
resolved input columns (case id, field name, previous/new value,
operation, raw timestamp); the remaining fields are the columns the
pipeline stages add: `timestamp_utc` (step 1), `bucket`/`level`
(step 5), `translated_value` (step 6), `sequence` (step 7) and
`activity_name` (step 8). -/
structure Row where
  case_id : String
  field : String
  prev_value : String
  new_value : String
  operation : String
  raw_timestamp : String
  timestamp_utc : String
  bucket : String
  level : String
  translated_value : String
  sequence : Option Nat
  activity_name : String
deriving DecidableEq

/-- ASCII lower-casing of one character, as Python `str.lower` acts on
the ASCII field names appearing in this data set. -/
def lowerChar (c : Char) : Char :=
  if 65 ≤ c.toNat ∧ c.toNat ≤ 90 then Char.ofNat (c.toNat + 32) else c

/-- Models Python `str.lower` (the pipeline only lower-cases ASCII
field names). -/
def lowerStr (s : String) : String := ⟨s.data.map lowerChar⟩

/-- Strip leading and trailing whitespace from a character list. -/
def stripChars (l : List Char) : List Char :=
  ((l.dropWhile Char.isWhitespace).reverse.dropWhile Char.isWhitespace).reverse

/-- Models Python `str.strip()`. -/
def pyStrip (s : String) : String := ⟨stripChars s.data⟩

/-- Python string order (code-point lexicographic) via `String.data`. -/
def strDataLE (a b : String) : Prop := a.data ≤ b.data

instance : DecidableRel strDataLE := fun a b => inferInstanceAs (Decidable (a.data ≤ b.data))

instance : IsTotal String strDataLE := ⟨fun a b => le_total a.data b.data⟩

instance : IsTrans String strDataLE := ⟨fun _ _ _ h h₂ => le_trans h h₂⟩

/-! ## Lifecycle filter (`single_event_filter.remove_single_event_cases`) -/

/-- Number of rows of `l` whose `case_id` equals `c`
(`df[case_id_column].value_counts()[c]`). -/
def countCase (l : List Row) (c : String) : Nat :=
  (l.filter (fun r => decide (r.case_id = c))).length

/-- Translation of `remove_single_event_cases` (`single_event_filter.py`):
keeps exactly the rows whose case has at least 2 events, and returns the
number of removed cases and removed rows (the CSV side report of the
removed rows is outside the value-level model). -/
def remove_single_event_cases (l : List Row) : List Row × Nat × Nat :=
  let kept := l.filter (fun r => decide (2 ≤ countCase l r.case_id))
  let removedRows := l.filter (fun r => decide (countCase l r.case_id < 2))
  let removedCases := (l.map Row.case_id).dedup.filter (fun c => decide (countCase l c < 2))
  (kept, removedCases.length, removedRows.length)

/-! ## Noise filter (`field_filtering.filter_kill_fields`) -/

/-- The static deny-list `KILL_FIELDS` of `field_filtering.py` (matched
case-sensitively against the raw field column). -/
def KILL_FIELDS : List String :=
  ["pricelevelid", "exchangerate", "pricingerrorcode", "skippricecalculation",
   "totaldiscountamount", "totaldiscountamount_base", "totallineitemdiscountamount",
   "totallineitemdiscountamount_base", "transactioncurrencyid", "isrevenuesystemcalculated"]

/-- Translation of `filter_kill_fields` (`field_filtering.py`). -/
def filter_kill_fields (l : List Row) : List Row × Nat :=
  let kept := l.filter (fun r => decide (¬ r.field ∈ KILL_FIELDS))
  (kept, l.length - kept.length)

/-! ## Taxonomy classifier (`bucket_classification.py`) -/

/-- The `L1_STAGE` membership table of `BUCKET_FIELDS`. -/
def L1_STAGE_FIELDS : List String :=
  ["estimatedclosedate", "msdyn_forecastcategory", "statuscode", "statecode",
   "stepname", "processid", "salesstagecode", "actualclosedate", "salesstage",
   "closeprobability", "the000g_purchaseorderstatus"]

/-- The `L2_MILESTONE` membership table of `BUCKET_FIELDS`. -/
def L2_MILESTONE_FIELDS : List String :=
  ["the000g_revenuetype", "completefinalproposal", "developproposal",
   "adx_readyfordistribution", "completeinternalreview", "identifycustomercontacts",
   "identifypursuitteam", "msdyn_ordertype", "new_oppotunitytype",
   "presentfinalproposal", "presentproposal", "adx_feedbackyet",
   "adx_partnercollaboration", "adx_partnercreated", "captureproposalfeedback",
   "confirminterest", "decisionmaker", "evaluatefit", "filedebrief",
   "identifycompetitors", "li_isinfluenced", "msdyn_gdproptout", "new_evaluatefit2",
   "opportunityratingcode", "pursuitdecision", "resolvefeedback",
   "the000g__revenuetype", "purchasetimeframe", "purchaseprocess",
   "new_contracttermmonths", "new_contractterm"]

/-- The `L3_ADMIN` membership table of `BUCKET_FIELDS`. -/
def L3_ADMIN_FIELDS : List String :=
  ["ownerid", "owningbusinessunit", "the000g_isrenewal", "customerid",
   "parentaccountid", "participatesinworkflow", "prioritycode",
   "sendthankyounote", "parentcontactid"]

/-- The `KILL_NOISE` membership table of `BUCKET_FIELDS` (distinct from
the noise filter list `KILL_FIELDS`). -/
def KILL_NOISE_FIELDS : List String :=
  ["finaldecisiondate", "originatingleadid", "pricelevelid", "exchangerate",
   "pricingerrorcode", "skippricecalculation", "totaldiscountamount",
   "totaldiscountamount_base", "totallineitemdiscountamount",
   "totallineitemdiscountamount_base", "transactioncurrencyid",
   "isrevenuesystemcalculated"]

/-- Translation of `classify_field` (`bucket_classification.py`): the
tables are consulted in dictionary insertion order, against the
lower-cased field name (the table entries are already lower case in the
source). -/
def classify_field (fieldName : String) : String × String :=
  let fl := lowerStr fieldName
  if fl ∈ L1_STAGE_FIELDS then ("L1_STAGE", "L1")
  else if fl ∈ L2_MILESTONE_FIELDS then ("L2_MILESTONE", "L2")
  else if fl ∈ L3_ADMIN_FIELDS then ("L3_ADMIN", "L3")
  else if fl ∈ KILL_NOISE_FIELDS then ("KILL_NOISE", "KILL")
  else ("UNKNOWN", "UNKNOWN")

/-- Translation of `add_bucket_classifications`. -/
def add_bucket_classifications (l : List Row) : List Row :=
  l.map (fun r => { r with bucket := (classify_field r.field).1,
                           level := (classify_field r.field).2 })

/-! ## Code translator (`code_translation.py`) -/

/-- The `statecode` translation table. -/
def STATECODE_TABLE : List (String × String) :=
  [("0", "Open"), ("1", "Won"), ("2", "Lost")]

/-- The `statuscode` translation table. -/
def STATUSCODE_TABLE : List (String × String) :=
  [("1", "In Progress"), ("2", "On Hold"), ("3", "Won"), ("4", "Canceled"), ("5", "Out-Sold")]

/-- Python `dict.get(value, value)` over an association list. -/
def lookupOrSelf (tbl : List (String × String)) (v : String) : String :=
  match tbl.find? (fun p => decide (p.1 = v)) with
  | some p => p.2
  | none => v

/-- Translation of `translate_value` (`code_translation.py`). -/
def translate_value (fieldName v : String) : String :=
  let fl := lowerStr fieldName
  if fl = "statecode" then lookupOrSelf STATECODE_TABLE v
  else if fl = "statuscode" then lookupOrSelf STATUSCODE_TABLE v
  else v

/-- Translation of `add_translations`. -/
def add_translations (l : List Row) : List Row :=
  l.map (fun r => { r with translated_value := translate_value r.field r.new_value })

/-! ## Sequence extractor (`sequence_extraction.py`) -/

/-- Numeric value of a digit run. -/
def digitsToNat (l : List Char) : Nat :=
  l.foldl (fun acc c => acc * 10 + (c.toNat - 48)) 0

/-- Translation of `extract_sequence` (`sequence_extraction.py`): the
regex match of a leading digit run directly followed by a hyphen
(matching succeeds exactly when the maximal leading digit run is
nonempty and followed by a hyphen). -/
def extract_sequence (fieldName newValue : String) : Option Nat :=
  if lowerStr fieldName = "stepname" then
    let ds := newValue.data.takeWhile Char.isDigit
    match newValue.data.dropWhile Char.isDigit with
    | '-' :: _ => if ds = [] then none else some (digitsToNat ds)
    | _ => none
  else none

/-- Translation of `add_sequence_numbers`. -/
def add_sequence_numbers (l : List Row) : List Row :=
  l.map (fun r => { r with sequence := extract_sequence r.field r.new_value })

/-! ## Activity namer (`activity_name_derivation.py`) -/

/-- The boolean milestone-flag field names of `derive_activity_name`. -/
def MILESTONE_FLAG_FIELDS : List String :=
  ["developproposal", "completefinalproposal", "completeinternalreview",
   "identifycustomercontacts", "identifypursuitteam", "presentfinalproposal",
   "presentproposal", "confirminterest", "decisionmaker", "evaluatefit",
   "filedebrief", "pursuitdecision", "captureproposalfeedback", "resolvefeedback",
   "identifycompetitors"]

/-- Translation of `derive_activity_name` (`activity_name_derivation.py`).
In the pipeline the `translated_value` column is always present, so the
`row.get` fallback chain resolves to it. -/
def derive_activity_name (r : Row) : String :=
  let v := r.translated_value
  if r.bucket = "L1_STAGE" then r.field ++ " → " ++ v
  else if r.bucket = "L2_MILESTONE" then
    if lowerStr r.field ∈ MILESTONE_FLAG_FIELDS then r.field ++ " completed"
    else r.field ++ " → " ++ v
  else if r.bucket = "L3_ADMIN" then
    if lowerStr r.field = "ownerid" then "Owner changed" else r.field ++ " changed"
  else r.field ++ " → " ++ v

/-- Translation of `add_activity_names`. -/
def add_activity_names (l : List Row) : List Row :=
  l.map (fun r => { r with activity_name := derive_activity_name r })

/-! ## Deduplicator (`event_deduplication.py`) -/

/-- The composite deduplication key
(case_id, activity_name, timestamp_utc). -/
def dedupKey (r : Row) : String × String × String :=
  (r.case_id, r.activity_name, r.timestamp_utc)

/-- Scan of `drop_duplicates(subset=key_fields, keep=first)`: keep a row
exactly when its key has not been seen before. -/
def dedupScan : List Row → List (String × String × String) → List Row
  | [], _ => []
  | r :: rs, seen =>
    if dedupKey r ∈ seen then dedupScan rs seen
    else r :: dedupScan rs (dedupKey r :: seen)

/-- Translation of `deduplicate_events` (`event_deduplication.py`) at the
default key fields: returns the deduplicated rows and the number of
removed duplicates. -/
def deduplicate_events (l : List Row) : List Row × Nat :=
  let d := dedupScan l []
  (d, l.length - d.length)

/-! ## Canonical sorter (`event_sorting.py`) -/

/-- Sort key component 3 of `sort_events`: statuscode-priority for L1
ties (`0` when the row is an `L1_STAGE` statuscode row, else `1`).  In
the pipeline the `Field` and `bucket` columns are always present, so the
column-existence branch of the source is taken. -/
def l1StatuscodePriority (r : Row) : Nat :=
  if r.bucket = "L1_STAGE" ∧ lowerStr r.field = "statuscode" then 0 else 1

/-- Sort key component 4 of `sort_events`: `0` when a sequence number is
present, `1` when it is absent (`df.sequence.isna().astype(int)`). -/
def hasSequenceFlag (r : Row) : Nat := if r.sequence.isNone then 1 else 0

/-- Sort key component 5 of `sort_events`: the sequence value with
absent sequences filled by `0` (`df.sequence.fillna(0)`). -/
def sequenceValue (r : Row) : Nat := r.sequence.getD 0

/-- The five-column sort key of `sort_events`, lexicographically
ordered: case_id, timestamp_utc, statuscode priority, has-sequence flag,
sequence value. -/
def rowKey (r : Row) : List Char ×ₗ List Char ×ₗ ℕ ×ₗ ℕ ×ₗ ℕ :=
  toLex (r.case_id.data,
    toLex (r.timestamp_utc.data,
      toLex (l1StatuscodePriority r,
        toLex (hasSequenceFlag r, sequenceValue r))))

/-- The full sort key including the original row position
(`_row_index`), which makes the key of every row of a frame distinct. -/
def fullKey (p : Nat × Row) : (List Char ×ₗ List Char ×ₗ ℕ ×ₗ ℕ ×ₗ ℕ) ×ₗ ℕ :=
  toLex (rowKey p.2, p.1)

/-- Comparison by the full sort key. -/
def fullKeyLE (p q : Nat × Row) : Prop := fullKey p ≤ fullKey q

instance : DecidableRel fullKeyLE := fun p q => inferInstanceAs (Decidable (fullKey p ≤ fullKey q))

instance : IsTotal (Nat × Row) fullKeyLE := ⟨fun p q => le_total (fullKey p) (fullKey q)⟩

instance : IsTrans (Nat × Row) fullKeyLE := ⟨fun _ _ _ h h₂ => le_trans h h₂⟩

/-- Translation of `sort_events` (`event_sorting.py`): rows are tagged
with their original position, sorted by the full key (under which all
tags are distinct, so any comparison sort produces this unique order),
and the temporary tag is dropped again. -/
def sort_events (l : List Row) : List Row :=
  (l.enum.insertionSort fullKeyLE).map Prod.snd

/-! ## Create aggregator (`create_aggregation.py`) -/

/-- Rows whose operation is the literal `Create`. -/
def createRows (l : List Row) : List Row :=
  l.filter (fun r => decide (r.operation = "Create"))

/-- Rows whose operation is not `Create` (`other_df`). -/
def nonCreateRows (l : List Row) : List Row :=
  l.filter (fun r => decide (¬ r.operation = "Create"))

/-- The Create-operation rows of one case (`create_df.groupby(case_id)`
group for key `c`). -/
def createGroup (l : List Row) (c : String) : List Row :=
  (createRows l).filter (fun r => decide (r.case_id = c))

/-- Ascending comparison by `timestamp_utc` (the per-group
`sort_values(by=[timestamp_utc])`). -/
def tsLE (a b : Row) : Prop := a.timestamp_utc.data ≤ b.timestamp_utc.data

instance : DecidableRel tsLE := fun a b => inferInstanceAs (Decidable (a.timestamp_utc.data ≤ b.timestamp_utc.data))

instance : IsTotal Row tsLE := ⟨fun a b => le_total a.timestamp_utc.data b.timestamp_utc.data⟩

instance : IsTrans Row tsLE := ⟨fun _ _ _ h h₂ => le_trans h h₂⟩

/-- Minimum of the present sequence values of a group
(`group.sequence.min()`, which skips absent values). -/
def minSeq (g : List Row) : Option Nat :=
  match g.filterMap Row.sequence with
  | [] => none
  | s :: rest => some (rest.foldl Nat.min s)

/-- The representative row of one Create group: the group is ordered by
`timestamp_utc` ascending, its first row is copied, its activity name is
overwritten with the constant `Case Created`, and when that first row
itself carries a sequence value the sequence is replaced by the group
minimum. -/
def createRepresentative (g : List Row) : Option Row :=
  (g.insertionSort tsLE).head?.map (fun r0 =>
    { r0 with activity_name := "Case Created",
              sequence := if r0.sequence.isSome then minSeq g else r0.sequence })

/-- The distinct case ids of the Create rows in ascending order
(`groupby` with its default `sort=True`). -/
def createCaseIds (l : List Row) : List String :=
  ((createRows l).map Row.case_id).dedup.insertionSort strDataLE

/-- Translation of `aggregate_create_operations`
(`create_aggregation.py`): when no Create rows exist the frame is
returned unchanged, otherwise one representative per case (in ascending
case-id order) is concatenated with all non-Create rows. -/
def aggregate_create_operations (l : List Row) : List Row :=
  if (createRows l).isEmpty then l
  else ((createCaseIds l).filterMap (fun c => createRepresentative (createGroup l c)))
    ++ nonCreateRows l

/-! ## Timestamp normalizer (`timestamp_parsing.py`)

The source delegates to the CPython `datetime` library.  The library
behaviour needed by the pipeline is modelled here: `fromisoformat` on
the documented grammar `YYYY-MM-DD[*HH[:MM[:SS[.f+]]]][(+|-)HH:MM]`,
`strptime` over the six fixed fallback format strings, and conversion of
an aware datetime to a UTC instant truncated to whole seconds.  The
model fixes `assume_timezone = UTC`, the value `main.py` passes. -/

/-- A parsed Python `datetime` value; `offsetMinutes = none` is a naive
datetime. -/
structure PyDateTime where
  year : Nat
  month : Nat
  day : Nat
  hour : Nat
  minute : Nat
  second : Nat
  microsecond : Nat
  offsetMinutes : Option Int
deriving DecidableEq

/-- Gregorian leap-year test. -/
def isLeapYear (y : Nat) : Bool := y % 4 = 0 ∧ (y % 100 ≠ 0 ∨ y % 400 = 0)

/-- Number of days of month `m` in year `y`. -/
def daysInMonth (y m : Nat) : Nat :=
  if m = 2 then (if isLeapYear y then 29 else 28)
  else if m = 4 ∨ m = 6 ∨ m = 9 ∨ m = 11 then 30
  else 31

/-- The validity check of the `datetime` constructor (`MINYEAR = 1`,
`MAXYEAR = 9999`, real calendar day, 24-hour clock, sub-minute
offsets bounded by one day). -/
def mkPyDateTime (y mo d h mi s micro : Nat) (off : Option Int) : Option PyDateTime :=
  if 1 ≤ y ∧ y ≤ 9999 ∧ 1 ≤ mo ∧ mo ≤ 12 ∧ 1 ≤ d ∧ d ≤ daysInMonth y mo ∧
     h ≤ 23 ∧ mi ≤ 59 ∧ s ≤ 59 ∧ micro ≤ 999999 then
    some ⟨y, mo, d, h, mi, s, micro, off⟩
  else none

/-- Consume exactly `n` digits, returning their value. -/
def takeDigits : Nat → Nat → List Char → Option (Nat × List Char)
  | 0, acc, l => some (acc, l)
  | n + 1, acc, c :: l =>
    if c.isDigit then takeDigits n (acc * 10 + (c.toNat - 48)) l else none
  | _ + 1, _, [] => none

/-- Consume a fractional-second field after the dot: one to six digits,
scaled to microseconds. -/
def takeFraction (l : List Char) : Option (Nat × List Char) :=
  let ds := l.takeWhile Char.isDigit
  if ds.length = 0 ∨ 6 < ds.length then none
  else some (digitsToNat ds * 10 ^ (6 - ds.length), l.dropWhile Char.isDigit)

/-- Parse the `HH[:MM[:SS[.f+]]]` time part of an ISO string. -/
def parseIsoTime (l : List Char) : Option (Nat × Nat × Nat × Nat × List Char) := do
  let (h, r1) ← takeDigits 2 0 l
  match r1 with
  | ':' :: r2 => do
    let (mi, r3) ← takeDigits 2 0 r2
    match r3 with
    | ':' :: r4 => do
      let (s, r5) ← takeDigits 2 0 r4
      match r5 with
      | '.' :: r6 => do
        let (micro, r7) ← takeFraction r6
        return (h, mi, s, micro, r7)
      | _ => return (h, mi, s, 0, r5)
    | _ => return (h, mi, 0, 0, r3)
  | _ => return (h, 0, 0, 0, r1)

/-- Parse the optional trailing `(+|-)HH:MM` UTC-offset part of an ISO
string (the end of the input means a naive datetime). -/
def parseIsoOffset : List Char → Option (Option Int)
  | [] => some none
  | c :: r => do
    let (hh, r1) ← takeDigits 2 0 r
    match r1 with
    | ':' :: r2 => do
      let (mm, r3) ← takeDigits 2 0 r2
      if r3 = [] ∧ hh ≤ 23 ∧ mm ≤ 59 then
        if c = '+' then some (some ((hh * 60 + mm : Nat) : Int))
        else if c = '-' then some (some (-((hh * 60 + mm : Nat) : Int)))
        else none
      else none
    | _ => none

/-- Models `datetime.fromisoformat` on the grammar
`YYYY-MM-DD[*HH[:MM[:SS[.f+]]]][(+|-)HH:MM]` (any single character as
the date-time separator, per the Python documentation). -/
def pyFromisoformat (str : String) : Option PyDateTime := do
  let (y, r1) ← takeDigits 4 0 str.data
  match r1 with
  | '-' :: r2 => do
    let (mo, r3) ← takeDigits 2 0 r2
    match r3 with
    | '-' :: r4 => do
      let (d, r5) ← takeDigits 2 0 r4
      match r5 with
      | [] => mkPyDateTime y mo d 0 0 0 0 none
      | _sep :: r6 => do
        let (h, mi, s, micro, r7) ← parseIsoTime r6
        let off ← parseIsoOffset r7
        mkPyDateTime y mo d h mi s micro off
    | _ => none
  | _ => none

/-- One directive or literal of a `strptime` format string. -/
inductive FmtTok
  | lit (c : Char)
  | ws
  | dY4
  | dMon
  | dDay
  | dH24
  | dMin
  | dSec
  | dH12
  | dY2
  | dAmPm
deriving DecidableEq

/-- Greedy two-digit field with one-digit fallback, the behaviour of the
CPython `strptime` regexes for `%m`, `%d`, `%H`, `%M`, `%S` and `%I`. -/
def take2Range (lo hi : Nat) : List Char → Option (Nat × List Char)
  | c1 :: c2 :: r =>
    if c1.isDigit ∧ c2.isDigit ∧ lo ≤ (c1.toNat - 48) * 10 + (c2.toNat - 48) ∧
       (c1.toNat - 48) * 10 + (c2.toNat - 48) ≤ hi then
      some ((c1.toNat - 48) * 10 + (c2.toNat - 48), r)
    else if c1.isDigit ∧ lo ≤ c1.toNat - 48 ∧ c1.toNat - 48 ≤ hi then
      some (c1.toNat - 48, c2 :: r)
    else none
  | [c1] =>
    if c1.isDigit ∧ lo ≤ c1.toNat - 48 ∧ c1.toNat - 48 ≤ hi then
      some (c1.toNat - 48, [])
    else none
  | [] => none

/-- Accumulated `strptime` fields (CPython defaults 1900-01-01 00:00:00;
`amPm` records a parsed `%p` marker). -/
structure StpState where
  y : Nat
  mo : Nat
  d : Nat
  h : Nat
  mi : Nat
  s : Nat
  amPm : Option Bool
deriving DecidableEq

/-- Consume one format token from the input. -/
def matchTok : FmtTok → StpState → List Char → Option (StpState × List Char)
  | .lit c, st, x :: r => if x = c then some (st, r) else none
  | .lit _, _, [] => none
  | .ws, st, l =>
    let l2 := l.dropWhile Char.isWhitespace
    if l2.length < l.length then some (st, l2) else none
  | .dY4, st, l => (takeDigits 4 0 l).map (fun p => ({ st with y := p.1 }, p.2))
  | .dMon, st, l => (take2Range 1 12 l).map (fun p => ({ st with mo := p.1 }, p.2))
  | .dDay, st, l => (take2Range 1 31 l).map (fun p => ({ st with d := p.1 }, p.2))
  | .dH24, st, l => (take2Range 0 23 l).map (fun p => ({ st with h := p.1 }, p.2))
  | .dMin, st, l => (take2Range 0 59 l).map (fun p => ({ st with mi := p.1 }, p.2))
  | .dSec, st, l => (take2Range 0 61 l).map (fun p => ({ st with s := p.1 }, p.2))
  | .dH12, st, l => (take2Range 1 12 l).map (fun p => ({ st with h := p.1 }, p.2))
  | .dY2, st, l => (takeDigits 2 0 l).map (fun p =>
      ({ st with y := if p.1 < 69 then 2000 + p.1 else 1900 + p.1 }, p.2))
  | .dAmPm, st, l =>
    match l with
    | a :: b :: r =>
      if (lowerChar a = 'a' ∨ lowerChar a = 'p') ∧ lowerChar b = 'm' then
        some ({ st with amPm := some (lowerChar a = 'p') }, r)
      else none
    | _ => none

/-- Run a whole format over the whole input (`strptime` fails when
unconverted data remains). -/
def runFmt : List FmtTok → StpState → List Char → Option StpState
  | [], st, [] => some st
  | [], _, _ :: _ => none
  | t :: ts, st, l => (matchTok t st l).bind (fun p => runFmt ts p.1 p.2)

/-- Adjust a 12-hour-clock value by a parsed AM/PM marker, as
`strptime` does when `%I` and `%p` are both present. -/
def applyAmPm (st : StpState) : StpState :=
  match st.amPm with
  | none => st
  | some true => if st.h = 12 then st else { st with h := st.h + 12 }
  | some false => if st.h = 12 then { st with h := 0 } else st

/-- Models `datetime.strptime(input, format)` for the fixed formats of
the fallback list; the result is naive. -/
def pyStrptime (toks : List FmtTok) (s : String) : Option PyDateTime :=
  (runFmt toks ⟨1900, 1, 1, 0, 0, 0, none⟩ s.data).bind (fun st0 =>
    let st := applyAmPm st0
    mkPyDateTime st.y st.mo st.d st.h st.mi st.s 0 none)

/-- Format token list of the string `%Y/%m/%d %H:%M:%S`. -/
def FMT_YMD_HMS : List FmtTok :=
  [.dY4, .lit '/', .dMon, .lit '/', .dDay, .ws, .dH24, .lit ':', .dMin, .lit ':', .dSec]

/-- Format token list of the string `%d/%m/%Y %I:%M:%S %p`. -/
def FMT_DMY_IMS_P : List FmtTok :=
  [.dDay, .lit '/', .dMon, .lit '/', .dY4, .ws, .dH12, .lit ':', .dMin, .lit ':', .dSec, .ws, .dAmPm]

/-- Format token list of the string `%d/%m/%Y %I:%M %p`. -/
def FMT_DMY_IM_P : List FmtTok :=
  [.dDay, .lit '/', .dMon, .lit '/', .dY4, .ws, .dH12, .lit ':', .dMin, .ws, .dAmPm]

/-- Format token list of the string `%d/%m/%Y %H:%M:%S`. -/
def FMT_DMY_HMS : List FmtTok :=
  [.dDay, .lit '/', .dMon, .lit '/', .dY4, .ws, .dH24, .lit ':', .dMin, .lit ':', .dSec]

/-- Format token list of the string `%d/%m/%Y %H:%M`. -/
def FMT_DMY_HM : List FmtTok :=
  [.dDay, .lit '/', .dMon, .lit '/', .dY4, .ws, .dH24, .lit ':', .dMin]

/-- Format token list of the string `%m/%d/%y %H:%M`. -/
def FMT_MDY2_HM : List FmtTok :=
  [.dMon, .lit '/', .dDay, .lit '/', .dY2, .ws, .dH24, .lit ':', .dMin]

/-- The ordered fallback list `_TIMESTAMP_STRPTIME_FALLBACKS`. -/
def TIMESTAMP_STRPTIME_FALLBACKS : List (List FmtTok) :=
  [FMT_YMD_HMS, FMT_DMY_IMS_P, FMT_DMY_IM_P, FMT_DMY_HMS, FMT_DMY_HM, FMT_MDY2_HM]

/-- First format of the fallback list that parses the raw value
(subsequent formats are not tried). -/
def firstStrptime : List (List FmtTok) → String → Option PyDateTime
  | [], _ => none
  | f :: fs, raw =>
    match pyStrptime f raw with
    | some dt => some dt
    | none => firstStrptime fs raw

/-- Days since 1970-01-01 of a civil date (Howard Hinnant's algorithm,
matching the proleptic Gregorian calendar of `datetime`). -/
def daysFromCivil (y : Int) (m d : Nat) : Int :=
  let yAdj : Int := if m ≤ 2 then y - 1 else y
  let era : Int := (if 0 ≤ yAdj then yAdj else yAdj - 399) / 400
  let yoe : Int := yAdj - era * 400
  let mp : Int := ((m : Int) + 9) % 12
  let doy : Int := (153 * mp + 2) / 5 + (d : Int) - 1
  let doe : Int := yoe * 365 + yoe / 4 - yoe / 100 + doy
  era * 146097 + doe - 719468

/-- Civil date of a number of days since 1970-01-01 (inverse of
`daysFromCivil`). -/
def civilFromDays (z0 : Int) : Int × Nat × Nat :=
  let z := z0 + 719468
  let era : Int := (if 0 ≤ z then z else z - 146096) / 146097
  let doe : Int := z - era * 146097
  let yoe : Int := (doe - doe / 1460 + doe / 36524 - doe / 146096) / 365
  let y : Int := yoe + era * 400
  let doy : Int := doe - (365 * yoe + yoe / 4 - yoe / 100)
  let mp : Int := (5 * doy + 2) / 153
  let d : Int := doy - (153 * mp + 2) / 5 + 1
  let m : Int := if mp < 10 then mp + 3 else mp - 9
  (if m ≤ 2 then y + 1 else y, m.toNat, d.toNat)

/-- Seconds since the epoch of the UTC instant denoted by a datetime
(naive values are assumed UTC, the timezone `main.py` configures);
microseconds are dropped, which is the truncation
`.replace(microsecond=0)` performs. -/
def utcEpochSecs (dt : PyDateTime) : Int :=
  daysFromCivil (dt.year : Int) dt.month dt.day * 86400
    + (dt.hour : Int) * 3600 + (dt.minute : Int) * 60 + (dt.second : Int)
    - (dt.offsetMinutes.getD 0) * 60

/-- Zero-padded two-digit decimal. -/
def pad2 (n : Nat) : String := if n < 10 then "0" ++ toString n else toString n

/-- Zero-padded four-digit decimal. -/
def pad4 (n : Nat) : String :=
  if n < 10 then "000" ++ toString n
  else if n < 100 then "00" ++ toString n
  else if n < 1000 then "0" ++ toString n
  else toString n

/-- Strict `YYYY-MM-DDTHH:MM:SSZ` rendering of an epoch instant
(`isoformat()` of a whole-second UTC datetime with `+00:00` replaced by
`Z`). -/
def formatUtcIsoZ (secs : Int) : String :=
  let days := Int.ediv secs 86400
  let sod := (Int.emod secs 86400).toNat
  let c := civilFromDays days
  pad4 c.1.toNat ++ "-" ++ pad2 c.2.1 ++ "-" ++ pad2 c.2.2 ++ "T" ++
    pad2 (sod / 3600) ++ ":" ++ pad2 (sod % 3600 / 60) ++ ":" ++ pad2 (sod % 60) ++ "Z"

/-- The `s = raw[:-1] + "+00:00" if raw.endswith("Z") else raw`
replacement the parser applies before the ISO attempt. -/
def zReplaceCandidate (raw : String) : String :=
  if raw.data.getLast? = some 'Z' then ⟨raw.data.dropLast ++ ("+00:00" : String).data⟩
  else raw

/-- The datetime-producing attempt chain of the parser: `fromisoformat`
on the `Z`-replaced value first, then the ordered fallback formats on
the raw trimmed value. -/
def pyIsoOrFallback (raw : String) : Option PyDateTime :=
  match pyFromisoformat (zReplaceCandidate raw) with
  | some dt => some dt
  | none => firstStrptime TIMESTAMP_STRPTIME_FALLBACKS raw

/-- Translation of `parse_timestamp_to_utc_iso_z`
(`timestamp_parsing.py`) at `assume_timezone = UTC`: trims the value,
classifies blank or literal `null` values as missing, replaces one
trailing `Z` by `+00:00` for the ISO attempt, tries `fromisoformat` and
then each fallback format on the raw trimmed value, classifies the value
invalid when everything fails, and otherwise renders the UTC instant
truncated to whole seconds. -/
def parse_timestamp_to_utc_iso_z (value : String) : Option String × Option String :=
  if pyStrip value = "" ∨ lowerStr (pyStrip value) = "null" then
    (none, some "DROP_TIMESTAMP_MISSING")
  else
    match pyIsoOrFallback (pyStrip value) with
    | none => (none, some "DROP_TIMESTAMP_INVALID")
    | some dt => (some (formatUtcIsoZ (utcEpochSecs dt)), none)

/-- Translation of `step1_parse_timestamps` (`main.py`): parse every raw
timestamp, store the UTC value, and drop the rows whose parse produced
none; the pipeline continues over the remaining rows. -/
def step1_parse_timestamps (l : List Row) : List Row :=
  l.filterMap (fun r =>
    match (parse_timestamp_to_utc_iso_z r.raw_timestamp).1 with
    | some u => some { r with timestamp_utc := u }
    | none => none)

/-! ## Tiered exporter (`xes_export.py`)

The XML serialization is modelled by its information content: a tier
file is a filename together with its ordered list of traces, each trace
a case id with its ordered `(concept:name, time:timestamp)` event
pairs.  Writing a file to disk corresponds to the file appearing in the
result list; an `XESExportError` raised inside `_export_single_xes`
corresponds to the error value, and files of tiers exported before the
failing tier remain in the list, exactly as files already written to
disk remain there when the exception aborts the bucket loop. -/

/-- One produced XES trace file. -/
structure XESFile where
  filename : String
  traces : List (String × List (String × String))
deriving DecidableEq

/-- The distinct reasons `_validate_timestamp_utc` raises
`XESExportError`, in source order of the checks.  The final UTC-offset
check of the source cannot fire because the validated string is parsed
with an appended `+00:00`, so it has no constructor here. -/
inductive TsFault
  | surroundingWhitespace
  | missingTrailingZ
  | patternMismatch
  | unparsableDatetime
deriving DecidableEq

/-- The error `_export_single_xes` wraps around a timestamp fault: the
index of the offending row within the exported subset, and the
reason. -/
structure ExportFault where
  rowIdx : Nat
  fault : TsFault
deriving DecidableEq

/-- Tail of the anchored timestamp regex after the seconds field:
either a bare `Z` or a nonempty digit fraction followed by `Z`. -/
def tsPatternTail : List Char → Bool
  | ['Z'] => true
  | '.' :: ds => decide (ds.takeWhile Char.isDigit ≠ []) &&
      decide (ds.dropWhile Char.isDigit = ['Z'])
  | _ => false

/-- Field extraction of the anchored regex
`\d{4}-\d{2}-\d{2}T\d{2}:\d{2}:\d{2}(\.\d+)?Z` (`_TIMESTAMP_UTC_RE`). -/
def tsPatternFields (l : List Char) : Option (Nat × Nat × Nat × Nat × Nat × Nat) :=
  match l with
  | y1 :: y2 :: y3 :: y4 :: '-' :: a1 :: a2 :: '-' :: b1 :: b2 :: 'T' ::
      h1 :: h2 :: ':' :: c1 :: c2 :: ':' :: e1 :: e2 :: rest =>
    if ([y1, y2, y3, y4, a1, a2, b1, b2, h1, h2, c1, c2, e1, e2].all Char.isDigit) &&
       tsPatternTail rest then
      some (digitsToNat [y1, y2, y3, y4], digitsToNat [a1, a2], digitsToNat [b1, b2],
            digitsToNat [h1, h2], digitsToNat [c1, c2], digitsToNat [e1, e2])
    else none
  | _ => none

/-- Translation of `_validate_timestamp_utc` (`xes_export.py`): the
checks in source order — no surrounding whitespace, trailing `Z`, the
strict pattern, and a parseable UTC instant (`fromisoformat` of the
value with `Z` replaced by `+00:00`, which succeeds exactly when the
calendar fields are in range). -/
def validate_timestamp_utc (v : String) : Option TsFault :=
  if v ≠ pyStrip v then some .surroundingWhitespace
  else if v.data.getLast? ≠ some 'Z' then some .missingTrailingZ
  else
    match tsPatternFields v.data with
    | none => some .patternMismatch
    | some (y, mo, d, h, mi, s) =>
      if 1 ≤ y ∧ 1 ≤ mo ∧ mo ≤ 12 ∧ 1 ≤ d ∧ d ≤ daysInMonth y mo ∧
         h ≤ 23 ∧ mi ≤ 59 ∧ s ≤ 59 then none
      else some .unparsableDatetime

/-- First offending row of a subset, with its index — the enumeration
loop of `_export_single_xes`. -/
def firstInvalidTs : List Row → Nat → Option ExportFault
  | [], _ => none
  | r :: rs, i =>
    match validate_timestamp_utc r.timestamp_utc with
    | some f => some ⟨i, f⟩
    | none => firstInvalidTs rs (i + 1)

/-- The case ids of an exported subset in ascending order
(`sorted(events_by_case.keys())`). -/
def exportCaseIds (rows : List Row) : List String :=
  (rows.map Row.case_id).dedup.insertionSort strDataLE

/-- Translation of `_export_single_xes`: every timestamp of the subset
is validated before anything is written; on the first violation the
export of this file aborts with the offending row index and reason and
no file is produced, otherwise the file holds one trace per case id in
ascending order, each trace keeping the subset's internal event
order. -/
def export_single_xes (rows : List Row) (filename : String) : Except ExportFault XESFile :=
  match firstInvalidTs rows 0 with
  | some e => .error e
  | none => .ok ⟨filename,
      (exportCaseIds rows).map (fun c =>
        (c, (rows.filter (fun r => decide (r.case_id = c))).map
          (fun r => (r.activity_name, r.timestamp_utc))))⟩

/-- The bucket table of `export_to_xes`: level code and output filename,
in dictionary insertion order. -/
def XES_TIERS : List (String × String) :=
  [("L1", "log_L1.xes"), ("L2", "log_L2.xes"), ("L3", "log_L3.xes")]

/-- The bucket loop of `export_to_xes`: tiers are processed in order;
a tier with no qualifying events is skipped; a validation error aborts
the loop, and the files of tiers already exported remain. -/
def exportTiers (l : List Row) : List (String × String) → List XESFile × Option ExportFault
  | [] => ([], none)
  | (code, fname) :: rest =>
    let sub := l.filter (fun r => decide (r.level = code))
    if sub.isEmpty then exportTiers l rest
    else
      match export_single_xes sub fname with
      | .error e => ([], some e)
      | .ok f => (f :: (exportTiers l rest).1, (exportTiers l rest).2)

/-- Translation of `export_to_xes` (`xes_export.py`): the produced tier
files in production order, together with the validation error that
aborted the export, if any. -/
def export_to_xes (l : List Row) : List XESFile × Option ExportFault :=
  exportTiers l XES_TIERS

/-- Event triples `(case id, activity name, timestamp)` of a tier file,
in file order. -/
def fileEvents (f : XESFile) : List (String × String × String) :=
  (f.traces.map (fun t => t.2.map (fun p => (t.1, p.1, p.2)))).flatten

/-! ## Pipeline composition (`main.main`) -/

/-- Steps 3 to 11 of `main.main`: lifecycle filter, noise filter, bucket
classification, code translation, sequence extraction, activity naming,
create aggregation, canonical sort, deduplication.  Its input is the
frame after timestamp parsing and case-id normalization, its output the
frame handed to the exporter. -/
def pipeline_steps3_to_11 (l : List Row) : List Row :=
  let l3 := (remove_single_event_cases l).1
  let l4 := (filter_kill_fields l3).1
  let l8 := add_activity_names (add_sequence_numbers (add_translations (add_bucket_classifications l4)))
  let l9 := aggregate_create_operations l8
  (deduplicate_events (sort_events l9)).1

/-! ## Supporting lemmas: deduplication -/

/-- The deduplication scan only drops rows. -/
theorem dedupScan_sublist (l : List Row) : ∀ seen, (dedupScan l seen).Sublist l := by
  induction l with
  | nil => intro seen; simp [dedupScan]
  | cons r rs ih =>
    intro seen
    by_cases h : dedupKey r ∈ seen
    · rw [dedupScan, if_pos h]; exact (ih seen).cons r
    · rw [dedupScan, if_neg h]; exact (ih _).cons₂ r

/-- Keys already seen never reappear in the scan's output. -/
theorem dedupScan_not_mem_seen (l : List Row) :
    ∀ seen r, r ∈ dedupScan l seen → dedupKey r ∉ seen := by
  induction l with
  | nil => intro seen r hr; simp [dedupScan] at hr
  | cons x rs ih =>
    intro seen r hr
    by_cases h : dedupKey x ∈ seen
    · rw [dedupScan, if_pos h] at hr
      exact ih seen r hr
    · rw [dedupScan, if_neg h] at hr
      rcases List.mem_cons.mp hr with rfl | hr2
      · exact h
      · intro hmem
        exact ih _ r hr2 (List.mem_cons_of_mem _ hmem)

/-- The scan's output has pairwise distinct keys. -/
theorem dedupScan_pairwise (l : List Row) :
    ∀ seen, (dedupScan l seen).Pairwise (fun a b => dedupKey a ≠ dedupKey b) := by
  induction l with
  | nil => intro seen; simp [dedupScan]
  | cons x rs ih =>
    intro seen
    by_cases h : dedupKey x ∈ seen
    · rw [dedupScan, if_pos h]; exact ih seen
    · rw [dedupScan, if_neg h]
      refine List.Pairwise.cons ?_ (ih _)
      intro b hb
      have := dedupScan_not_mem_seen rs _ b hb
      intro hEq
      exact this (by rw [← hEq]; exact List.mem_cons_self _ _)

/-- A list with pairwise distinct keys, none of them seen, passes the
scan unchanged. -/
theorem dedupScan_eq_self (l : List Row) :
    ∀ seen, l.Pairwise (fun a b => dedupKey a ≠ dedupKey b) →
    (∀ r ∈ l, dedupKey r ∉ seen) → dedupScan l seen = l := by
  induction l with
  | nil => intro seen _ _; simp [dedupScan]
  | cons x rs ih =>
    intro seen hp hs
    rw [dedupScan, if_neg (hs x (List.mem_cons_self x rs))]
    congr 1
    refine ih _ hp.of_cons ?_
    intro r hr
    have hne : dedupKey x ≠ dedupKey r := (List.pairwise_cons.mp hp).1 r hr
    intro hmem
    rcases List.mem_cons.mp hmem with hEq | hseen
    · exact hne hEq.symm
    · exact hs r (List.mem_cons_of_mem _ hr) hseen

/-- The scan preserves the first row carrying any key not yet seen. -/
theorem dedupScan_find (l : List Row) :
    ∀ seen k, k ∉ seen →
    (dedupScan l seen).find? (fun r => decide (dedupKey r = k)) =
      l.find? (fun r => decide (dedupKey r = k)) := by
  induction l with
  | nil => intro seen k _; simp [dedupScan]
  | cons x rs ih =>
    intro seen k hk
    by_cases h : dedupKey x ∈ seen
    · rw [dedupScan, if_pos h]
      have hne : dedupKey x ≠ k := fun hEq => hk (hEq ▸ h)
      rw [List.find?_cons, ih seen k hk]
      simp [hne]
    · rw [dedupScan, if_neg h]
      by_cases hEq : dedupKey x = k
      · simp [List.find?_cons, hEq]
      · have hk2 : k ∉ dedupKey x :: seen := by
          intro hmem
          rcases List.mem_cons.mp hmem with hmem | hmem
          · exact hEq hmem.symm
          · exact hk hmem
        rw [List.find?_cons, List.find?_cons]
        simp only [hEq, decide_False]
        exact ih _ k hk2

/-- C6: deduplication removes exact duplicates on the composite key
(case_id, activity_name, timestamp_utc): it is idempotent, its output
carries pairwise distinct keys, and it keeps the first occurrence of
each key in the incoming (canonical) order — the output is a sublist of
the input on which the first row found for any key is the first row of
the input with that key. -/
theorem C6_deduplicate_events_idempotent (l : List Row) :
    (deduplicate_events (deduplicate_events l).1).1 = (deduplicate_events l).1 ∧
    ((deduplicate_events l).1).Pairwise (fun a b => dedupKey a ≠ dedupKey b) ∧
    ((deduplicate_events l).1).Sublist l ∧
    ∀ k, ((deduplicate_events l).1).find? (fun r => decide (dedupKey r = k)) =
      l.find? (fun r => decide (dedupKey r = k)) := by
  refine ⟨?_, dedupScan_pairwise l [], dedupScan_sublist l [], ?_⟩
  · show dedupScan (dedupScan l []) [] = dedupScan l []
    exact dedupScan_eq_self _ [] (dedupScan_pairwise l []) (fun r _ => List.not_mem_nil _)
  · intro k
    exact dedupScan_find l [] k (List.not_mem_nil _)

/-! ## Supporting lemmas: canonical sorting -/

/-- Two sorted permutations of each other agree when the sort key is
injective on their elements. -/
theorem sorted_perm_eq_of_key_inj {α K : Type} [LinearOrder K] (k : α → K) :
    ∀ (l₁ l₂ : List α), l₁.Perm l₂ → l₁.Sorted (fun a b => k a ≤ k b) →
    l₂.Sorted (fun a b => k a ≤ k b) →
    (∀ a ∈ l₁, ∀ b ∈ l₁, k a = k b → a = b) → l₁ = l₂ := by
  intro l₁
  induction l₁ with
  | nil => intro l₂ p _ _ _; exact (p.symm.eq_nil).symm
  | cons a t ih =>
    intro l₂ p s₁ s₂ inj
    cases l₂ with
    | nil => exact absurd p.eq_nil (by simp)
    | cons b t₂ =>
      have hab : a ∈ b :: t₂ := p.mem_iff.mp (List.mem_cons_self a t)
      have hba : b ∈ a :: t := p.mem_iff.mpr (List.mem_cons_self b t₂)
      have h1 : k a ≤ k b := by
        rcases List.mem_cons.mp hba with hEq | hb
        · exact le_of_eq (by rw [hEq])
        · exact List.rel_of_sorted_cons s₁ b hb
      have h2 : k b ≤ k a := by
        rcases List.mem_cons.mp hab with hEq | ha
        · exact le_of_eq (by rw [hEq])
        · exact List.rel_of_sorted_cons s₂ a ha
      have hk : a = b := inj a (List.mem_cons_self a t) b hba (le_antisymm h1 h2)
      subst hk
      have ht : t = t₂ :=
        ih t₂ p.cons_inv s₁.of_cons s₂.of_cons
          (fun x hx y hy hxy =>
            inj x (List.mem_cons_of_mem _ hx) y (List.mem_cons_of_mem _ hy) hxy)
      rw [ht]

/-- The sorter returns a permutation of its input. -/
theorem sortEvents_perm (l : List Row) : (sort_events l).Perm l := by
  have h := (List.perm_insertionSort fullKeyLE l.enum).map Prod.snd
  rwa [List.enum_map_snd] at h

/-- The sorter's output is sorted by the five-column row key. -/
theorem sortEvents_sorted (l : List Row) :
    (sort_events l).Sorted (fun a b => rowKey a ≤ rowKey b) := by
  have hs := List.sorted_insertionSort fullKeyLE l.enum
  exact List.Pairwise.map Prod.snd
    (fun p q h => by
      rcases (Prod.Lex.le_iff (rowKey p.2, p.1) (rowKey q.2, q.1)).mp h with hlt | hEq
      · exact le_of_lt hlt
      · exact le_of_eq hEq.1) hs

/-- C10: `sort_events` only reorders: the output rows are a permutation
of the input rows, none added, removed or modified (the temporary key
columns do not survive into the result). -/
theorem C10_sort_events_permutation (l : List Row) : (sort_events l).Perm l :=
  sortEvents_perm l

/-- C2 (amended): `sort_events` is a deterministic stable sort by the
key (case_id, timestamp_utc, statuscode-priority, has-sequence,
sequence): whenever no two distinct rows of the input share that full
five-column key, every permutation of the input produces the identical
output sequence. -/
theorem C2_sort_events_perm_invariant (l l₂ : List Row) (hp : l.Perm l₂)
    (hinj : ∀ a ∈ l, ∀ b ∈ l, rowKey a = rowKey b → a = b) :
    sort_events l = sort_events l₂ := by
  refine sorted_perm_eq_of_key_inj rowKey _ _
    ((sortEvents_perm l).trans (hp.trans (sortEvents_perm l₂).symm))
    (sortEvents_sorted l) (sortEvents_sorted l₂) ?_
  intro a ha b hb hk
  exact hinj a ((sortEvents_perm l).mem_iff.mp ha) b ((sortEvents_perm l).mem_iff.mp hb) hk

/-- A template row for the concrete instances below. -/
def baseRow : Row :=
  { case_id := "A", field := "stepname", prev_value := "", new_value := "14-Qualify",
    operation := "Update", raw_timestamp := "15/03/2024 10:00",
    timestamp_utc := "2024-01-01T10:00:00Z", bucket := "", level := "",
    translated_value := "", sequence := none, activity_name := "" }

/-- Two rows sharing the full sort key but differing in content. -/
def sortTieRowA : Row := { baseRow with field := "f", new_value := "v1" }

/-- Second row of the tied pair. -/
def sortTieRowB : Row := { sortTieRowA with new_value := "v2" }

/-- C2 (counterexample): the claim as stated fails — these two rows
share the full sort key and differ only in `new_value`, and swapping
them in the input swaps them in the output, so the two permutations of
the same row set produce different output sequences. -/
theorem C2_counterexample_not_perm_invariant :
    List.Perm [sortTieRowA, sortTieRowB] [sortTieRowB, sortTieRowA] ∧
    sort_events [sortTieRowA, sortTieRowB] ≠ sort_events [sortTieRowB, sortTieRowA] := by
  decide

/-- Two rows with distinct sort keys, in one input order. -/
def sortKeyedRowA : Row := { baseRow with case_id := "A" }

/-- The partner row with a distinct case id. -/
def sortKeyedRowB : Row := { baseRow with case_id := "B" }

/-- Witness for the amended C2 theorem at a concrete key-distinct pair
of rows in both input orders. -/
theorem C2_witness :
    sort_events [sortKeyedRowA, sortKeyedRowB] = sort_events [sortKeyedRowB, sortKeyedRowA] :=
  C2_sort_events_perm_invariant [sortKeyedRowA, sortKeyedRowB] [sortKeyedRowB, sortKeyedRowA]
    (by decide) (by decide)

/-! ## C1: the minimum-two-events invariant -/

/-- C1 (amended): immediately after the lifecycle filter every case
present in its output has at least 2 events.  Stages that run later
(noise filter, create aggregation, deduplication) can reduce a case
below 2 events again, and such cases remain in the final exported
output, as the counterexample shows. -/
theorem C1_lifecycle_filter_min2 (l : List Row) (c : String)
    (hc : c ∈ ((remove_single_event_cases l).1).map Row.case_id) :
    2 ≤ countCase (remove_single_event_cases l).1 c := by
  obtain ⟨r, hr, hrc⟩ := List.mem_map.mp hc
  have hmem := List.mem_filter.mp hr
  have hcnt : 2 ≤ countCase l r.case_id := of_decide_eq_true hmem.2
  subst hrc
  show 2 ≤ ((l.filter (fun x => decide (2 ≤ countCase l x.case_id))).filter
      (fun x => decide (x.case_id = r.case_id))).length
  rw [List.filter_filter]
  have hflt : (l.filter (fun a =>
      decide (a.case_id = r.case_id) && decide (2 ≤ countCase l a.case_id))) =
      l.filter (fun a => decide (a.case_id = r.case_id)) := by
    apply List.filter_congr
    intro x _
    by_cases hcase : x.case_id = r.case_id
    · have h2 : decide (2 ≤ countCase l x.case_id) = true := by
        rw [hcase]; exact decide_eq_true hcnt
      simp [hcase, h2, hcnt]
    · simp [hcase]
  rw [hflt]
  exact hcnt

/-- Witness for the amended C1 theorem: a case with two rows survives
the lifecycle filter with both events. -/
theorem C1_witness : 2 ≤ countCase (remove_single_event_cases [baseRow, baseRow]).1 "A" :=
  C1_lifecycle_filter_min2 [baseRow, baseRow] "A" (by decide)

/-- The noise row of the C1 counterexample: same case as `baseRow`, but
its field is on the noise deny-list. -/
def noiseRow : Row :=
  { baseRow with field := "pricelevelid", new_value := "x",
                 timestamp_utc := "2024-01-02T10:00:00Z" }

/-- C1 (counterexample): the claim as stated fails on the code.  Case
`A` enters the lifecycle filter with 2 events, the noise filter then
removes one of them, and the final exported output contains case `A`
with exactly 1 event. -/
theorem C1_counterexample_single_event_exported :
    export_to_xes (pipeline_steps3_to_11 [baseRow, noiseRow]) =
      ([⟨"log_L1.xes", [("A", [("stepname → 14-Qualify", "2024-01-01T10:00:00Z")])]⟩], none) ∧
    countCase (pipeline_steps3_to_11 [baseRow, noiseRow]) "A" = 1 := by
  decide

/-! ## Supporting lemmas: create aggregation -/

/-- Membership in a Create group. -/
theorem mem_createGroup {l : List Row} {c : String} {r : Row} :
    r ∈ createGroup l c ↔ r ∈ l ∧ r.operation = "Create" ∧ r.case_id = c := by
  unfold createGroup createRows
  simp only [List.mem_filter, decide_eq_true_eq]
  tauto

/-- The distinct-case-id list enumerates exactly the cases with a
Create row. -/
theorem mem_createCaseIds {l : List Row} {c : String} :
    c ∈ createCaseIds l ↔ ∃ r ∈ l, r.operation = "Create" ∧ r.case_id = c := by
  unfold createCaseIds createRows
  rw [List.mem_insertionSort, List.mem_dedup]
  simp only [List.mem_map, List.mem_filter, decide_eq_true_eq]
  tauto

/-- The distinct-case-id list has no duplicates. -/
theorem createCaseIds_nodup (l : List Row) : (createCaseIds l).Nodup :=
  (List.perm_insertionSort strDataLE _).symm.nodup (List.nodup_dedup _)

/-- Minimum of a nonempty fold. -/
theorem foldl_min_spec (xs : List Nat) :
    ∀ a : Nat, xs.foldl Nat.min a ∈ a :: xs ∧ ∀ t ∈ a :: xs, xs.foldl Nat.min a ≤ t := by
  induction xs with
  | nil =>
    intro a
    refine ⟨List.mem_cons_self a [], ?_⟩
    intro t ht
    rcases List.mem_cons.mp ht with rfl | h2
    · exact le_refl _
    · exact absurd h2 (List.not_mem_nil t)
  | cons x xs ih =>
    intro a
    have h := ih (Nat.min a x)
    have hle1 : Nat.min a x ≤ a := min_le_left a x
    have hle2 : Nat.min a x ≤ x := min_le_right a x
    have hcases : Nat.min a x = a ∨ Nat.min a x = x := min_choice a x
    rw [List.foldl_cons]
    constructor
    · rcases List.mem_cons.mp h.1 with hm | hm
      · rw [hm]
        rcases hcases with hmin | hmin
        · rw [hmin]; exact List.mem_cons_self _ _
        · rw [hmin]; exact List.mem_cons_of_mem _ (List.mem_cons_self _ _)
      · exact List.mem_cons_of_mem _ (List.mem_cons_of_mem _ hm)
    · intro t ht
      rcases List.mem_cons.mp ht with rfl | ht2
      · exact le_trans (h.2 _ (List.mem_cons_self _ _)) hle1
      · rcases List.mem_cons.mp ht2 with rfl | ht3
        · exact le_trans (h.2 _ (List.mem_cons_self _ _)) hle2
        · exact h.2 t (List.mem_cons_of_mem _ ht3)

/-- Characterization of the skip-missing group minimum. -/
theorem minSeq_spec {g : List Row} {s : Nat} (h : minSeq g = some s) :
    s ∈ g.filterMap Row.sequence ∧ ∀ t ∈ g.filterMap Row.sequence, s ≤ t := by
  unfold minSeq at h
  cases hf : g.filterMap Row.sequence with
  | nil => rw [hf] at h; exact absurd h (by simp)
  | cons a xs =>
    rw [hf] at h
    have hs : xs.foldl Nat.min a = s := by
      have h2 := h
      simp at h2
      exact h2
    have hspec := foldl_min_spec xs a
    rw [hs] at hspec
    exact hspec

/-- The representative of a group: it is the override of a
minimum-timestamp row of the group. -/
theorem createRepresentative_spec {g : List Row} {rep : Row}
    (h : createRepresentative g = some rep) :
    ∃ r0 ∈ g, (∀ x ∈ g, r0.timestamp_utc.data ≤ x.timestamp_utc.data) ∧
      rep = { r0 with activity_name := "Case Created",
                      sequence := if r0.sequence.isSome then minSeq g else r0.sequence } := by
  unfold createRepresentative at h
  cases hs : g.insertionSort tsLE with
  | nil => rw [hs] at h; exact absurd h (by simp)
  | cons r0 t =>
    rw [hs] at h
    simp only [List.head?_cons, Option.map_some', Option.some.injEq] at h
    refine ⟨r0, ?_, ?_, h.symm⟩
    · exact (List.mem_insertionSort tsLE).mp (by rw [hs]; exact List.mem_cons_self _ _)
    · intro x hx
      have hx2 : x ∈ g.insertionSort tsLE := (List.mem_insertionSort tsLE).mpr hx
      rw [hs] at hx2
      rcases List.mem_cons.mp hx2 with rfl | hx3
      · exact le_refl _
      · have hsorted := List.sorted_insertionSort tsLE g
        rw [hs] at hsorted
        exact List.rel_of_sorted_cons hsorted x hx3

/-- A nonempty group always yields a representative. -/
theorem createRepresentative_isSome {g : List Row} (h : g ≠ []) :
    ∃ rep, createRepresentative g = some rep := by
  unfold createRepresentative
  cases hs : g.insertionSort tsLE with
  | nil =>
    have p := List.perm_insertionSort tsLE g
    rw [hs] at p
    exact absurd p.symm.eq_nil h
  | cons r0 t => exact ⟨_, rfl⟩

/-- Field values of a representative determined by its group key. -/
theorem rep_fields {l : List Row} {c : String} {rep : Row}
    (h : createRepresentative (createGroup l c) = some rep) :
    rep.case_id = c ∧ rep.operation = "Create" ∧ rep.activity_name = "Case Created" := by
  obtain ⟨r0, hr0, _, hrepEq⟩ := createRepresentative_spec h
  have hg := mem_createGroup.mp hr0
  rw [hrepEq]
  exact ⟨hg.2.2, hg.2.1, rfl⟩

/-- No representative of another case survives the case filter. -/
theorem reps_filter_not_mem (l : List Row) (c : String) :
    ∀ cids : List String, c ∉ cids →
    (cids.filterMap (fun x => createRepresentative (createGroup l x))).filter
      (fun r => decide (r.case_id = c) && decide (r.activity_name = "Case Created")) = [] := by
  intro cids
  induction cids with
  | nil => intro _; rfl
  | cons d rest ih =>
    intro hc
    have hdc : d ≠ c := fun hEq => hc (hEq ▸ List.mem_cons_self d rest)
    have hcr : c ∉ rest := fun hEq => hc (List.mem_cons_of_mem _ hEq)
    rw [List.filterMap_cons]
    cases hrep : createRepresentative (createGroup l d) with
    | none => exact ih hcr
    | some rep =>
      have hcase : rep.case_id = d := (rep_fields hrep).1
      have hp : (decide (rep.case_id = c) && decide (rep.activity_name = "Case Created")) = false := by
        simp [hcase, hdc]
      rw [List.filter_cons, hp]
      simpa using ih hcr

/-- The case filter over the representatives of a duplicate-free case
list yields exactly the representative of the filtered case. -/
theorem reps_filter_mem (l : List Row) (c : String) (rep : Row)
    (hrep : createRepresentative (createGroup l c) = some rep) :
    ∀ cids : List String, cids.Nodup → c ∈ cids →
    (cids.filterMap (fun x => createRepresentative (createGroup l x))).filter
      (fun r => decide (r.case_id = c) && decide (r.activity_name = "Case Created")) = [rep] := by
  intro cids
  induction cids with
  | nil => intro _ hmem; exact absurd hmem (List.not_mem_nil c)
  | cons d rest ih =>
    intro hnd hmem
    rw [List.filterMap_cons]
    by_cases hdc : d = c
    · subst hdc
      rw [hrep]
      have hfields := rep_fields hrep
      have hp : (decide (rep.case_id = d) && decide (rep.activity_name = "Case Created")) = true := by
        simp [hfields.1, hfields.2.2]
      rw [List.filter_cons, hp]
      simpa using reps_filter_not_mem l d rest (List.nodup_cons.mp hnd).1
    · have hcr : c ∈ rest := by
        rcases List.mem_cons.mp hmem with hEq | hEq
        · exact absurd hEq.symm hdc
        · exact hEq
      have ihr := ih (List.nodup_cons.mp hnd).2 hcr
      cases hrd : createRepresentative (createGroup l d) with
      | none => exact ihr
      | some rep2 =>
        have hcase2 : rep2.case_id = d := (rep_fields hrd).1
        have hp : (decide (rep2.case_id = c) && decide (rep2.activity_name = "Case Created")) = false := by
          simp [hcase2, hdc]
        rw [List.filter_cons, hp]
        simpa using ihr

/-- C4: for every case with at least one Create row — provided no
non-Create row already carries the reserved name `Case Created`, which
the Activity Namer never produces — the aggregator's output contains
exactly one event of that case named `Case Created`, and its timestamp
is the minimum timestamp among the case's Create rows. -/
theorem C4_aggregate_create_unique (l : List Row) (c : String)
    (h1 : ∃ r ∈ l, r.operation = "Create" ∧ r.case_id = c)
    (h2 : ∀ r ∈ l, r.operation ≠ "Create" → r.activity_name ≠ "Case Created") :
    ∃ rep, (aggregate_create_operations l).filter
        (fun r => decide (r.case_id = c) && decide (r.activity_name = "Case Created")) = [rep] ∧
      rep.timestamp_utc ∈ (createGroup l c).map Row.timestamp_utc ∧
      ∀ x ∈ createGroup l c, rep.timestamp_utc.data ≤ x.timestamp_utc.data := by
  obtain ⟨r, hrl, hrop, hrc⟩ := h1
  have hrg : r ∈ createGroup l c := mem_createGroup.mpr ⟨hrl, hrop, hrc⟩
  obtain ⟨rep, hrep⟩ := createRepresentative_isSome (List.ne_nil_of_mem hrg)
  obtain ⟨r0, hr0g, hmin, hrepEq⟩ := createRepresentative_spec hrep
  refine ⟨rep, ?_, ?_, ?_⟩
  · unfold aggregate_create_operations
    have hne : ¬ ((createRows l).isEmpty = true) := by
      intro hEmpty
      have hmemc : r ∈ createRows l := List.mem_filter.mpr ⟨hrl, by simp [hrop]⟩
      cases hcr : createRows l with
      | nil => rw [hcr] at hmemc; exact List.not_mem_nil r hmemc
      | cons a t => rw [hcr] at hEmpty; simp [List.isEmpty] at hEmpty
    rw [if_neg hne, List.filter_append]
    have hnc : (nonCreateRows l).filter
        (fun r => decide (r.case_id = c) && decide (r.activity_name = "Case Created")) = [] := by
      rw [List.filter_eq_nil_iff]
      intro x hx
      have hxl := List.mem_filter.mp hx
      have hop : ¬ x.operation = "Create" := of_decide_eq_true hxl.2
      have hname : x.activity_name ≠ "Case Created" := h2 x hxl.1 hop
      simp [hname]
    rw [hnc, List.append_nil]
    exact reps_filter_mem l c rep hrep (createCaseIds l) (createCaseIds_nodup l)
      (mem_createCaseIds.mpr ⟨r, hrl, hrop, hrc⟩)
  · rw [hrepEq]
    show r0.timestamp_utc ∈ (createGroup l c).map Row.timestamp_utc
    exact List.mem_map_of_mem Row.timestamp_utc hr0g
  · intro x hx
    rw [hrepEq]
    show r0.timestamp_utc.data ≤ x.timestamp_utc.data
    exact hmin x hx

/-- C9: every field of a case's representative other than the activity
name and possibly the sequence equals the corresponding field of a
minimum-timestamp Create row of that case, and the non-Create rows of
the frame pass through the aggregator unchanged. -/
theorem C9_create_representative_frame (l : List Row) (c : String) (rep : Row)
    (h : createRepresentative (createGroup l c) = some rep) :
    (∃ r0 ∈ createGroup l c,
      (∀ x ∈ createGroup l c, r0.timestamp_utc.data ≤ x.timestamp_utc.data) ∧
      rep = { r0 with activity_name := "Case Created", sequence := rep.sequence }) ∧
    (aggregate_create_operations l).filter (fun r => decide (¬ r.operation = "Create")) =
      nonCreateRows l := by
  constructor
  · obtain ⟨r0, hr0, hmin, hrepEq⟩ := createRepresentative_spec h
    refine ⟨r0, hr0, hmin, ?_⟩
    rw [hrepEq]
  · unfold aggregate_create_operations
    by_cases hne : (createRows l).isEmpty = true
    · rw [if_pos hne]; rfl
    · rw [if_neg hne, List.filter_append]
      have hreps : ((createCaseIds l).filterMap
          (fun x => createRepresentative (createGroup l x))).filter
          (fun r => decide (¬ r.operation = "Create")) = [] := by
        rw [List.filter_eq_nil_iff]
        intro x hx
        obtain ⟨cid, _, hsome⟩ := List.mem_filterMap.mp hx
        obtain ⟨r0, hr0g, _, hxEq⟩ := createRepresentative_spec hsome
        have hop : x.operation = "Create" := by
          rw [hxEq]; exact (mem_createGroup.mp hr0g).2.1
        simp [hop]
      have hself : (nonCreateRows l).filter (fun r => decide (¬ r.operation = "Create")) =
          nonCreateRows l := by
        rw [List.filter_eq_self]
        intro x hx
        exact (List.mem_filter.mp hx).2
      rw [hreps, hself, List.nil_append]

/-- C5 (amended): if the chronologically earliest Create row of a group
itself carries a sequence value, the representative's sequence is the
minimum sequence value present in the group; if the earliest row has no
sequence, the representative has no sequence even when later rows of
the group do. -/
theorem C5_amended_sequence (g : List Row) (rep : Row) (h : createRepresentative g = some rep) :
    ∃ r0 ∈ g, (∀ x ∈ g, r0.timestamp_utc.data ≤ x.timestamp_utc.data) ∧
      (r0.sequence = none → rep.sequence = none) ∧
      (r0.sequence.isSome = true →
        ∃ s, rep.sequence = some s ∧ s ∈ g.filterMap Row.sequence ∧
          ∀ t ∈ g.filterMap Row.sequence, s ≤ t) := by
  obtain ⟨r0, hr0, hmin, hrepEq⟩ := createRepresentative_spec h
  refine ⟨r0, hr0, hmin, ?_, ?_⟩
  · intro hnone
    rw [hrepEq]
    simp [hnone]
  · intro hsome
    obtain ⟨v, hv⟩ := Option.isSome_iff_exists.mp hsome
    have hvmem : v ∈ g.filterMap Row.sequence := List.mem_filterMap.mpr ⟨r0, hr0, hv⟩
    cases hm : minSeq g with
    | none =>
      unfold minSeq at hm
      cases hf : g.filterMap Row.sequence with
      | nil => rw [hf] at hvmem; exact absurd hvmem (List.not_mem_nil v)
      | cons a xs => rw [hf] at hm; exact absurd hm (by simp)
    | some s =>
      have hms := minSeq_spec hm
      refine ⟨s, ?_, hms.1, hms.2⟩
      rw [hrepEq]
      simp [hsome, hm]

/-- An early Create row carrying sequence 7. -/
def createEarlySeqRow : Row :=
  { baseRow with operation := "Create", timestamp_utc := "2024-01-01T00:00:00Z",
                 sequence := some 7 }

/-- A later Create row of the same case carrying sequence 3. -/
def createLateSeqRow : Row :=
  { baseRow with operation := "Create", timestamp_utc := "2024-01-02T00:00:00Z",
                 sequence := some 3 }

/-- The representative the aggregator produces for the two rows above. -/
def createRepWitnessRow : Row :=
  { createEarlySeqRow with activity_name := "Case Created", sequence := some 3 }

/-- Witness for C4 at a concrete two-row Create group. -/
theorem C4_witness :
    ∃ rep, (aggregate_create_operations [createEarlySeqRow, createLateSeqRow]).filter
        (fun r => decide (r.case_id = "A") && decide (r.activity_name = "Case Created")) = [rep] ∧
      rep.timestamp_utc ∈ (createGroup [createEarlySeqRow, createLateSeqRow] "A").map Row.timestamp_utc ∧
      ∀ x ∈ createGroup [createEarlySeqRow, createLateSeqRow] "A",
        rep.timestamp_utc.data ≤ x.timestamp_utc.data :=
  C4_aggregate_create_unique [createEarlySeqRow, createLateSeqRow] "A" (by decide) (by decide)

/-- Witness for C9 at the same concrete group. -/
theorem C9_witness :
    (∃ r0 ∈ createGroup [createEarlySeqRow, createLateSeqRow] "A",
      (∀ x ∈ createGroup [createEarlySeqRow, createLateSeqRow] "A",
        r0.timestamp_utc.data ≤ x.timestamp_utc.data) ∧
      createRepWitnessRow = { r0 with activity_name := "Case Created",
                                      sequence := createRepWitnessRow.sequence }) ∧
    (aggregate_create_operations [createEarlySeqRow, createLateSeqRow]).filter
        (fun r => decide (¬ r.operation = "Create")) =
      nonCreateRows [createEarlySeqRow, createLateSeqRow] :=
  C9_create_representative_frame [createEarlySeqRow, createLateSeqRow] "A"
    createRepWitnessRow (by decide)

/-- Witness for the amended C5 theorem at the same concrete group. -/
theorem C5_witness :
    ∃ r0 ∈ [createEarlySeqRow, createLateSeqRow],
      (∀ x ∈ [createEarlySeqRow, createLateSeqRow],
        r0.timestamp_utc.data ≤ x.timestamp_utc.data) ∧
      (r0.sequence = none → createRepWitnessRow.sequence = none) ∧
      (r0.sequence.isSome = true →
        ∃ s, createRepWitnessRow.sequence = some s ∧
          s ∈ [createEarlySeqRow, createLateSeqRow].filterMap Row.sequence ∧
          ∀ t ∈ [createEarlySeqRow, createLateSeqRow].filterMap Row.sequence, s ≤ t) :=
  C5_amended_sequence [createEarlySeqRow, createLateSeqRow] createRepWitnessRow (by decide)

/-- A Create row without a sequence value, chronologically first. -/
def createSeqNoneRow : Row :=
  { baseRow with operation := "Create", timestamp_utc := "2024-01-01T00:00:00Z",
                 sequence := none }

/-- A later Create row of the same case carrying sequence 5. -/
def createSeqSomeRow : Row :=
  { baseRow with operation := "Create", timestamp_utc := "2024-01-02T00:00:00Z",
                 sequence := some 5 }

/-- C5 (counterexample): the claim as stated fails — the group carries
the sequence value 5 (so the claimed minimum is 5), the earliest row
carries none, and the aggregator's single output event for the case has
no sequence value at all. -/
theorem C5_counterexample_sequence_dropped :
    (aggregate_create_operations [createSeqNoneRow, createSeqSomeRow]).map Row.sequence = [none] ∧
    [createSeqNoneRow, createSeqSomeRow].filterMap Row.sequence = [5] ∧
    createSeqNoneRow.timestamp_utc.data ≤ createSeqSomeRow.timestamp_utc.data := by
  decide

/-! ## Supporting lemmas: tiered export -/

/-- The enumeration loop finds no fault exactly when every row of the
subset has a valid timestamp. -/
theorem firstInvalidTs_none_iff : ∀ (rows : List Row) (i : Nat),
    firstInvalidTs rows i = none ↔
      ∀ r ∈ rows, validate_timestamp_utc r.timestamp_utc = none := by
  intro rows
  induction rows with
  | nil => intro i; simp [firstInvalidTs]
  | cons r rs ih =>
    intro i
    unfold firstInvalidTs
    cases hv : validate_timestamp_utc r.timestamp_utc with
    | some f =>
      simp only [List.mem_cons]
      constructor
      · intro h; exact absurd h (by simp)
      · intro h
        exact absurd (h r (Or.inl rfl)) (by rw [hv]; simp)
    | none =>
      rw [ih (i + 1)]
      constructor
      · intro h x hx
        rcases List.mem_cons.mp hx with rfl | hx2
        · exact hv
        · exact h x hx2
      · intro h x hx
        exact h x (List.mem_cons_of_mem _ hx)

/-- A successful single-file export: the filename is as requested, all
timestamps validated, and the traces are the per-case partition in
ascending case order. -/
theorem export_single_ok_spec {rows : List Row} {fname : String} {f : XESFile}
    (h : export_single_xes rows fname = .ok f) :
    f.filename = fname ∧ firstInvalidTs rows 0 = none ∧
    f.traces = (exportCaseIds rows).map (fun c =>
      (c, (rows.filter (fun r => decide (r.case_id = c))).map
        (fun r => (r.activity_name, r.timestamp_utc)))) := by
  unfold export_single_xes at h
  cases hfi : firstInvalidTs rows 0 with
  | some e => rw [hfi] at h; exact absurd h (by simp)
  | none =>
    rw [hfi] at h
    have hf := Except.ok.inj h
    rw [← hf]
    exact ⟨rfl, rfl, rfl⟩

/-- A failing single-file export reports the first offending row. -/
theorem export_single_error_spec {rows : List Row} {fname : String} {e : ExportFault}
    (h : export_single_xes rows fname = .error e) :
    firstInvalidTs rows 0 = some e := by
  unfold export_single_xes at h
  cases hfi : firstInvalidTs rows 0 with
  | some e2 =>
    rw [hfi] at h
    exact congrArg some (Except.error.inj h)
  | none =>
    rw [hfi] at h
    exact absurd h (by simp)

/-- Unfolding equation: a tier with no qualifying events is skipped. -/
theorem exportTiers_cons_skip {l : List Row} {code fname : String}
    {rest : List (String × String)}
    (h : (l.filter (fun r => decide (r.level = code))).isEmpty = true) :
    exportTiers l ((code, fname) :: rest) = exportTiers l rest := by
  conv_lhs => rw [exportTiers]
  rw [if_pos h]

/-- Unfolding equation: a failing tier aborts the loop. -/
theorem exportTiers_cons_error {l : List Row} {code fname : String}
    {rest : List (String × String)} {e : ExportFault}
    (hsub : ¬ (l.filter (fun r => decide (r.level = code))).isEmpty = true)
    (hx : export_single_xes (l.filter (fun r => decide (r.level = code))) fname = .error e) :
    exportTiers l ((code, fname) :: rest) = ([], some e) := by
  conv_lhs => rw [exportTiers]
  rw [if_neg hsub, hx]

/-- Unfolding equation: a successful tier contributes its file. -/
theorem exportTiers_cons_ok {l : List Row} {code fname : String}
    {rest : List (String × String)} {f : XESFile}
    (hsub : ¬ (l.filter (fun r => decide (r.level = code))).isEmpty = true)
    (hx : export_single_xes (l.filter (fun r => decide (r.level = code))) fname = .ok f) :
    exportTiers l ((code, fname) :: rest) =
      (f :: (exportTiers l rest).1, (exportTiers l rest).2) := by
  conv_lhs => rw [exportTiers]
  rw [if_neg hsub, hx]

/-- Every produced file carries the filename of some processed tier. -/
theorem exportTiers_filenames : ∀ (ts : List (String × String)) (l : List Row) (g : XESFile),
    g ∈ (exportTiers l ts).1 → g.filename ∈ ts.map Prod.snd := by
  intro ts
  induction ts with
  | nil => intro l g hg; simp [exportTiers] at hg
  | cons p rest ih =>
    intro l g hg
    obtain ⟨code, fname⟩ := p
    by_cases hsub : (l.filter (fun r => decide (r.level = code))).isEmpty = true
    · rw [exportTiers_cons_skip hsub] at hg
      exact List.mem_cons_of_mem _ (ih l g hg)
    · cases hx : export_single_xes (l.filter (fun r => decide (r.level = code))) fname with
      | error e =>
        rw [exportTiers_cons_error hsub hx] at hg
        exact absurd hg (List.not_mem_nil g)
      | ok f =>
        rw [exportTiers_cons_ok hsub hx] at hg
        rcases List.mem_cons.mp hg with rfl | hg2
        · rw [List.map_cons, (export_single_ok_spec hx).1]
          exact List.mem_cons_self _ _
        · exact List.mem_cons_of_mem _ (ih l g hg2)

/-- An aborted export run: some processed tier holds the first offending
row reported by the error, that tier's file is not among the produced
files, and processing stopped there. -/
theorem exportTiers_error_spec : ∀ (ts : List (String × String)) (l : List Row) (e : ExportFault),
    (ts.map Prod.snd).Nodup → (exportTiers l ts).2 = some e →
    ∃ code fname, (code, fname) ∈ ts ∧
      firstInvalidTs (l.filter (fun r => decide (r.level = code))) 0 = some e ∧
      ∀ g ∈ (exportTiers l ts).1, g.filename ≠ fname := by
  intro ts
  induction ts with
  | nil => intro l e _ h; exact absurd h (by simp [exportTiers])
  | cons p rest ih =>
    intro l e hnd h
    obtain ⟨code, fname⟩ := p
    rw [List.map_cons] at hnd
    by_cases hsub : (l.filter (fun r => decide (r.level = code))).isEmpty = true
    · rw [exportTiers_cons_skip hsub] at h ⊢
      obtain ⟨c2, f2, hmem, hfirst, hfiles⟩ := ih l e (List.nodup_cons.mp hnd).2 h
      exact ⟨c2, f2, List.mem_cons_of_mem _ hmem, hfirst, hfiles⟩
    · cases hx : export_single_xes (l.filter (fun r => decide (r.level = code))) fname with
      | error e2 =>
        rw [exportTiers_cons_error hsub hx] at h ⊢
        have he2 : e2 = e := Option.some.inj h
        refine ⟨code, fname, List.mem_cons_self _ _, ?_, ?_⟩
        · rw [← he2]; exact export_single_error_spec hx
        · intro g hg; exact absurd hg (List.not_mem_nil g)
      | ok f =>
        rw [exportTiers_cons_ok hsub hx] at h ⊢
        obtain ⟨c2, f2, hmem, hfirst, hfiles⟩ := ih l e (List.nodup_cons.mp hnd).2 h
        refine ⟨c2, f2, List.mem_cons_of_mem _ hmem, hfirst, ?_⟩
        intro g hg
        rcases List.mem_cons.mp hg with rfl | hg2
        · rw [(export_single_ok_spec hx).1]
          intro hEq
          exact (List.nodup_cons.mp hnd).1
            (hEq ▸ (List.mem_map_of_mem Prod.snd hmem : f2 ∈ rest.map Prod.snd))
        · exact hfiles g hg2

/-- A run succeeds exactly when every row of every processed tier has a
valid timestamp. -/
theorem exportTiers_none_iff : ∀ (ts : List (String × String)) (l : List Row),
    (exportTiers l ts).2 = none ↔
      ∀ p ∈ ts, ∀ r ∈ l.filter (fun r => decide (r.level = p.1)),
        validate_timestamp_utc r.timestamp_utc = none := by
  intro ts
  induction ts with
  | nil => intro l; simp [exportTiers]
  | cons p rest ih =>
    intro l
    obtain ⟨code, fname⟩ := p
    by_cases hsub : (l.filter (fun r => decide (r.level = code))).isEmpty = true
    · rw [exportTiers_cons_skip hsub, ih l]
      have hnil : l.filter (fun r => decide (r.level = code)) = [] := by
        cases hc : l.filter (fun r => decide (r.level = code)) with
        | nil => rfl
        | cons a t => rw [hc] at hsub; simp [List.isEmpty] at hsub
      constructor
      · intro h q hq
        rcases List.mem_cons.mp hq with rfl | hq2
        · intro r hr; rw [hnil] at hr; exact absurd hr (List.not_mem_nil r)
        · exact h q hq2
      · intro h q hq
        exact h q (List.mem_cons_of_mem _ hq)
    · cases hx : export_single_xes (l.filter (fun r => decide (r.level = code))) fname with
      | error e =>
        rw [exportTiers_cons_error hsub hx]
        constructor
        · intro h; exact absurd h (by simp)
        · intro h
          have hv := h (code, fname) (List.mem_cons_self _ _)
          have hfi := (firstInvalidTs_none_iff _ 0).mpr hv
          have herr := export_single_error_spec hx
          rw [hfi] at herr
          exact absurd herr (by simp)
      | ok f =>
        rw [exportTiers_cons_ok hsub hx, ih l]
        constructor
        · intro h q hq
          rcases List.mem_cons.mp hq with rfl | hq2
          · exact (firstInvalidTs_none_iff _ 0).mp (export_single_ok_spec hx).2.1
          · exact h q hq2
        · intro h q hq
          exact h q (List.mem_cons_of_mem _ hq)

/-- C3 (amended): within each tier every timestamp is validated before
that tier's file is produced — a run succeeds exactly when every
exported-level timestamp passes the strict UTC validation, and an
aborted run reports the index and reason of the first offending row of
the failing tier, whose file is not written.  Tiers already exported
before the failure remain on disk, as the counterexample shows. -/
theorem C3_export_validation (l : List Row) :
    ((export_to_xes l).2 = none ↔
      ∀ r ∈ l, r.level ∈ ["L1", "L2", "L3"] →
        validate_timestamp_utc r.timestamp_utc = none) ∧
    ∀ e, (export_to_xes l).2 = some e →
      ∃ code fname, (code, fname) ∈ XES_TIERS ∧
        firstInvalidTs (l.filter (fun r => decide (r.level = code))) 0 = some e ∧
        ∀ g ∈ (export_to_xes l).1, g.filename ≠ fname := by
  constructor
  · show (exportTiers l XES_TIERS).2 = none ↔ _
    rw [exportTiers_none_iff]
    constructor
    · intro h r hr hlvl
      simp only [List.mem_cons, List.not_mem_nil, or_false] at hlvl
      rcases hlvl with h1 | h1 | h1
      · exact h ("L1", "log_L1.xes") (by decide) r (List.mem_filter.mpr ⟨hr, by simp [h1]⟩)
      · exact h ("L2", "log_L2.xes") (by decide) r (List.mem_filter.mpr ⟨hr, by simp [h1]⟩)
      · exact h ("L3", "log_L3.xes") (by decide) r (List.mem_filter.mpr ⟨hr, by simp [h1]⟩)
    · intro h p hp r hr
      have hm := List.mem_filter.mp hr
      have hlv : r.level = p.1 := of_decide_eq_true hm.2
      apply h r hm.1
      rw [hlv]
      simp only [XES_TIERS, List.mem_cons, List.not_mem_nil, or_false] at hp
      rcases hp with rfl | rfl | rfl <;> simp
  · intro e he
    exact exportTiers_error_spec XES_TIERS l e (by decide) he

/-- A valid exported row of tier L1. -/
def exportRowL1 : Row :=
  { baseRow with level := "L1", activity_name := "a" }

/-- An L2 row whose timestamp violates the strict UTC contract. -/
def exportRowL2Bad : Row :=
  { baseRow with case_id := "B", level := "L2", activity_name := "b",
                 timestamp_utc := "not-a-date" }

/-- C3 (counterexample): the claim as stated fails — the L2 timestamp
violation aborts the export with the offending row index and reason,
but the L1 tier file written before the failure remains, so a tier file
does exist on disk after an export failure. -/
theorem C3_counterexample_partial_file_remains :
    (export_to_xes [exportRowL1, exportRowL2Bad]).2 =
      some ⟨0, TsFault.missingTrailingZ⟩ ∧
    (export_to_xes [exportRowL1, exportRowL2Bad]).1 =
      [⟨"log_L1.xes", [("A", [("a", "2024-01-01T10:00:00Z")])]⟩] := by
  decide

/-- Witness for the amended C3 theorem at a concrete failing export. -/
theorem C3_witness :
    ∃ code fname, (code, fname) ∈ XES_TIERS ∧
      firstInvalidTs ([exportRowL1, exportRowL2Bad].filter
        (fun r => decide (r.level = code))) 0 = some ⟨0, TsFault.missingTrailingZ⟩ ∧
      ∀ g ∈ (export_to_xes [exportRowL1, exportRowL2Bad]).1, g.filename ≠ fname :=
  (C3_export_validation [exportRowL1, exportRowL2Bad]).2
    ⟨0, TsFault.missingTrailingZ⟩ (by decide)

/-- The exported case-id list has no duplicates. -/
theorem exportCaseIds_nodup (rows : List Row) : (exportCaseIds rows).Nodup :=
  (List.perm_insertionSort strDataLE _).symm.nodup (List.nodup_dedup _)

/-- The exported case-id list covers exactly the case ids present. -/
theorem mem_exportCaseIds {rows : List Row} {c : String} :
    c ∈ exportCaseIds rows ↔ c ∈ rows.map Row.case_id := by
  unfold exportCaseIds
  rw [List.mem_insertionSort, List.mem_dedup]

/-- Partition of a list by a duplicate-free covering list of keys. -/
theorem flatten_filter_perm {α : Type} (key : α → String) :
    ∀ (cids : List String) (xs : List α), cids.Nodup → (∀ x ∈ xs, key x ∈ cids) →
    ((cids.map (fun c => xs.filter (fun x => decide (key x = c)))).flatten).Perm xs := by
  intro cids
  induction cids with
  | nil =>
    intro xs _ hcov
    cases xs with
    | nil => simp
    | cons a t => exact absurd (hcov a (List.mem_cons_self a t)) (List.not_mem_nil _)
  | cons c cs ih =>
    intro xs hnd hcov
    rw [List.map_cons, List.flatten_cons]
    have hmapeq : cs.map (fun d => xs.filter (fun x => decide (key x = d))) =
        cs.map (fun d => (xs.filter (fun x => ! decide (key x = c))).filter
          (fun x => decide (key x = d))) := by
      apply List.map_congr_left
      intro d hd
      rw [List.filter_filter]
      apply List.filter_congr
      intro x _
      by_cases hxd : key x = d
      · have hxc : ¬ key x = c := by
          rw [hxd]
          intro hEq
          exact (List.nodup_cons.mp hnd).1 (hEq ▸ hd)
        have hdc : ¬ d = c := fun hEq => hxc (by rw [hxd, hEq])
        simp [hxd, hxc, hdc]
      · simp [hxd]
    rw [hmapeq]
    have ihp := ih (xs.filter (fun x => ! decide (key x = c))) (List.nodup_cons.mp hnd).2 ?_
    · exact (List.Perm.append_left (xs.filter (fun x => decide (key x = c))) ihp).trans
        (List.filter_append_perm (fun x => decide (key x = c)) xs)
    · intro x hx
      have hm := List.mem_filter.mp hx
      rcases List.mem_cons.mp (hcov x hm.1) with hEq | h2
      · exact absurd (decide_eq_true hEq) (by simpa using hm.2)
      · exact h2

/-- The events of a successfully exported tier file are a permutation of
the subset's event triples. -/
theorem export_single_events_perm {rows : List Row} {fname : String} {f : XESFile}
    (h : export_single_xes rows fname = .ok f) :
    (fileEvents f).Perm (rows.map (fun r => (r.case_id, r.activity_name, r.timestamp_utc))) := by
  have hspec := export_single_ok_spec h
  unfold fileEvents
  rw [hspec.2.2, List.map_map]
  have hfun : ((fun t : String × List (String × String) =>
        t.2.map (fun p => (t.1, p.1, p.2))) ∘ (fun c =>
        (c, (rows.filter (fun r => decide (r.case_id = c))).map
          (fun r => (r.activity_name, r.timestamp_utc))))) =
      fun c => ((rows.filter (fun r => decide (r.case_id = c))).map
        (fun r => (r.activity_name, r.timestamp_utc))).map (fun p => (c, p.1, p.2)) := rfl
  rw [hfun]
  have hinner : (exportCaseIds rows).map (fun c =>
      ((rows.filter (fun r => decide (r.case_id = c))).map
        (fun r => (r.activity_name, r.timestamp_utc))).map (fun p => (c, p.1, p.2))) =
      (exportCaseIds rows).map (fun c =>
        (rows.filter (fun r => decide (r.case_id = c))).map
          (fun r => (r.case_id, r.activity_name, r.timestamp_utc))) := by
    apply List.map_congr_left
    intro c _
    rw [List.map_map]
    apply List.map_congr_left
    intro r hr
    have hc : r.case_id = c := of_decide_eq_true (List.mem_filter.mp hr).2
    simp [hc]
  rw [hinner]
  have hflat : ((exportCaseIds rows).map (fun c =>
      (rows.filter (fun x => decide (x.case_id = c))).map
        (fun r => (r.case_id, r.activity_name, r.timestamp_utc)))).flatten =
      (((exportCaseIds rows).map (fun c =>
        rows.filter (fun x => decide (x.case_id = c)))).flatten).map
          (fun r => (r.case_id, r.activity_name, r.timestamp_utc)) := by
    rw [List.map_flatten, List.map_map]
    rfl
  rw [hflat]
  exact (flatten_filter_perm Row.case_id (exportCaseIds rows) rows
    (exportCaseIds_nodup rows)
    (fun x hx => mem_exportCaseIds.mpr (List.mem_map_of_mem Row.case_id hx))).map _

/-- A successful run: a skipped tier produces no file, and every
nonempty tier contributes exactly its own successfully exported file. -/
theorem exportTiers_success_spec : ∀ (ts : List (String × String)) (l : List Row),
    (ts.map Prod.snd).Nodup → (exportTiers l ts).2 = none →
    ∀ code fname, (code, fname) ∈ ts →
      ((l.filter (fun r => decide (r.level = code)) = [] →
        ∀ g ∈ (exportTiers l ts).1, g.filename ≠ fname) ∧
       (l.filter (fun r => decide (r.level = code)) ≠ [] →
        ∃ g ∈ (exportTiers l ts).1, g.filename = fname ∧
          export_single_xes (l.filter (fun r => decide (r.level = code))) fname = .ok g)) := by
  intro ts
  induction ts with
  | nil => intro l _ _ code fname hmem; exact absurd hmem (List.not_mem_nil _)
  | cons p rest ih =>
    intro l hnd hok code fname hmem
    obtain ⟨c0, f0⟩ := p
    rw [List.map_cons] at hnd
    by_cases hsub : (l.filter (fun r => decide (r.level = c0))).isEmpty = true
    · rw [exportTiers_cons_skip hsub] at hok ⊢
      rcases List.mem_cons.mp hmem with hEq | hmem2
      · injection hEq with hc hf
        subst hc
        subst hf
        have hnil : l.filter (fun r => decide (r.level = code)) = [] := by
          cases hc2 : l.filter (fun r => decide (r.level = code)) with
          | nil => rfl
          | cons a t => rw [hc2] at hsub; simp [List.isEmpty] at hsub
        constructor
        · intro _ g hg
          have hgn := exportTiers_filenames rest l g hg
          intro hEq2
          exact (List.nodup_cons.mp hnd).1 (hEq2 ▸ hgn)
        · intro hne; exact absurd hnil hne
      · exact ih l (List.nodup_cons.mp hnd).2 hok code fname hmem2
    · cases hx : export_single_xes (l.filter (fun r => decide (r.level = c0))) f0 with
      | error e =>
        rw [exportTiers_cons_error hsub hx] at hok
        exact absurd hok (by simp)
      | ok f =>
        rw [exportTiers_cons_ok hsub hx] at hok ⊢
        rcases List.mem_cons.mp hmem with hEq | hmem2
        · injection hEq with hc hf
          subst hc
          subst hf
          constructor
          · intro hnil
            have hemp : (l.filter (fun r => decide (r.level = code))).isEmpty = true := by
              rw [hnil]; rfl
            exact absurd hemp hsub
          · intro _
            exact ⟨f, List.mem_cons_self _ _, (export_single_ok_spec hx).1, hx⟩
        · have hih := ih l (List.nodup_cons.mp hnd).2 hok code fname hmem2
          have hfname : fname ∈ rest.map Prod.snd :=
            List.mem_map_of_mem Prod.snd hmem2
          constructor
          · intro hnil g hg
            rcases List.mem_cons.mp hg with rfl | hg2
            · rw [(export_single_ok_spec hx).1]
              intro hEq2
              exact (List.nodup_cons.mp hnd).1 (hEq2 ▸ hfname)
            · exact hih.1 hnil g hg2
          · intro hne
            obtain ⟨g, hg, hgf, hgx⟩ := hih.2 hne
            exact ⟨g, List.mem_cons_of_mem _ hg, hgf, hgx⟩

/-- C8: for a successful export the three tier files partition the
exported events — each produced file belongs to one of the three tiers,
a tier with no qualifying events yields no file, and a nonempty tier's
file holds (grouped by case) exactly the event triples of the rows
whose level is that tier's code; rows of level `KILL` or `UNKNOWN`
match no tier and therefore appear in no file. -/
theorem C8_export_partition (l : List Row) (hok : (export_to_xes l).2 = none) :
    (∀ g ∈ (export_to_xes l).1, g.filename ∈ XES_TIERS.map Prod.snd) ∧
    ∀ code fname, (code, fname) ∈ XES_TIERS →
      ((l.filter (fun r => decide (r.level = code)) = [] →
        ∀ g ∈ (export_to_xes l).1, g.filename ≠ fname) ∧
       (l.filter (fun r => decide (r.level = code)) ≠ [] →
        ∃ g ∈ (export_to_xes l).1, g.filename = fname ∧
          (fileEvents g).Perm ((l.filter (fun r => decide (r.level = code))).map
            (fun r => (r.case_id, r.activity_name, r.timestamp_utc))))) := by
  constructor
  · intro g hg
    exact exportTiers_filenames XES_TIERS l g hg
  · intro code fname hmem
    have hspec := exportTiers_success_spec XES_TIERS l (by decide) hok code fname hmem
    refine ⟨hspec.1, ?_⟩
    intro hne
    obtain ⟨g, hg, hgf, hgx⟩ := hspec.2 hne
    exact ⟨g, hg, hgf, export_single_events_perm hgx⟩

/-- Witness for C8 at a concrete successful two-tier export. -/
theorem C8_witness :
    (∀ g ∈ (export_to_xes [exportRowL1]).1, g.filename ∈ XES_TIERS.map Prod.snd) ∧
    ∀ code fname, (code, fname) ∈ XES_TIERS →
      (([exportRowL1].filter (fun r => decide (r.level = code)) = [] →
        ∀ g ∈ (export_to_xes [exportRowL1]).1, g.filename ≠ fname) ∧
       ([exportRowL1].filter (fun r => decide (r.level = code)) ≠ [] →
        ∃ g ∈ (export_to_xes [exportRowL1]).1, g.filename = fname ∧
          (fileEvents g).Perm (([exportRowL1].filter (fun r => decide (r.level = code))).map
            (fun r => (r.case_id, r.activity_name, r.timestamp_utc))))) :=
  C8_export_partition [exportRowL1] (by decide)

/-! ## Supporting lemmas: timestamp classification -/

/-- The fallback chain fails exactly when every format fails. -/
theorem firstStrptime_none_iff : ∀ (fs : List (List FmtTok)) (raw : String),
    firstStrptime fs raw = none ↔ ∀ f ∈ fs, pyStrptime f raw = none := by
  intro fs
  induction fs with
  | nil => intro raw; simp [firstStrptime]
  | cons f fs ih =>
    intro raw
    unfold firstStrptime
    cases hx : pyStrptime f raw with
    | some dt =>
      constructor
      · intro h; exact absurd h (by simp)
      · intro h
        exact absurd (h f (List.mem_cons_self f fs)) (by rw [hx]; simp)
    | none =>
      rw [ih raw]
      constructor
      · intro h g hg
        rcases List.mem_cons.mp hg with rfl | hg2
        · exact hx
        · exact h g hg2
      · intro h g hg
        exact h g (List.mem_cons_of_mem _ hg)

/-- The attempt chain fails exactly when the ISO attempt and every
fallback format fail. -/
theorem pyIsoOrFallback_none_iff (raw : String) :
    pyIsoOrFallback raw = none ↔
      (pyFromisoformat (zReplaceCandidate raw) = none ∧
       ∀ f ∈ TIMESTAMP_STRPTIME_FALLBACKS, pyStrptime f raw = none) := by
  unfold pyIsoOrFallback
  cases hx : pyFromisoformat (zReplaceCandidate raw) with
  | some dt =>
    constructor
    · intro h; exact absurd h (by simp)
    · intro h; exact absurd h.1 (by simp)
  | none => rw [firstStrptime_none_iff]; simp

/-- The parser always lands in exactly one of the three outcomes:
success, missing, or invalid. -/
theorem parse_timestamp_shape (value : String) :
    (∃ u, parse_timestamp_to_utc_iso_z value = (some u, none)) ∨
    parse_timestamp_to_utc_iso_z value = (none, some "DROP_TIMESTAMP_MISSING") ∨
    parse_timestamp_to_utc_iso_z value = (none, some "DROP_TIMESTAMP_INVALID") := by
  unfold parse_timestamp_to_utc_iso_z
  by_cases hmiss : pyStrip value = "" ∨ lowerStr (pyStrip value) = "null"
  · rw [if_pos hmiss]
    exact Or.inr (Or.inl rfl)
  · rw [if_neg hmiss]
    cases hdt : pyIsoOrFallback (pyStrip value) with
    | none => exact Or.inr (Or.inr rfl)
    | some dt => exact Or.inl ⟨_, rfl⟩

/-- C7: classification of raw timestamps — a trimmed-blank or literal
`null` value is classified missing; otherwise the value is classified
invalid exactly when the ISO attempt and every fallback pattern fail;
no UTC value is produced in exactly these two cases; and step 1 drops
exactly the rows so classified while the others continue through the
pipeline with their UTC value (the parser is total, so row-level
failures never abort the run). -/
theorem C7_timestamp_classification (value : String) :
    ((pyStrip value = "" ∨ lowerStr (pyStrip value) = "null") ↔
      parse_timestamp_to_utc_iso_z value = (none, some "DROP_TIMESTAMP_MISSING")) ∧
    (¬ (pyStrip value = "" ∨ lowerStr (pyStrip value) = "null") →
      ((pyFromisoformat (zReplaceCandidate (pyStrip value)) = none ∧
        ∀ f ∈ TIMESTAMP_STRPTIME_FALLBACKS, pyStrptime f (pyStrip value) = none) ↔
        parse_timestamp_to_utc_iso_z value = (none, some "DROP_TIMESTAMP_INVALID"))) ∧
    (((parse_timestamp_to_utc_iso_z value).1 = none) ↔
      ((parse_timestamp_to_utc_iso_z value).2 = some "DROP_TIMESTAMP_MISSING" ∨
       (parse_timestamp_to_utc_iso_z value).2 = some "DROP_TIMESTAMP_INVALID")) ∧
    ∀ rows : List Row,
      (∀ r ∈ step1_parse_timestamps rows,
        (parse_timestamp_to_utc_iso_z r.raw_timestamp).2 = none) ∧
      (∀ r ∈ rows, (parse_timestamp_to_utc_iso_z r.raw_timestamp).2 = none →
        ∃ u, parse_timestamp_to_utc_iso_z r.raw_timestamp = (some u, none) ∧
          { r with timestamp_utc := u } ∈ step1_parse_timestamps rows) := by
  refine ⟨?_, ?_, ?_, ?_⟩
  · constructor
    · intro hmiss
      unfold parse_timestamp_to_utc_iso_z
      rw [if_pos hmiss]
    · intro h
      by_contra hmiss
      unfold parse_timestamp_to_utc_iso_z at h
      rw [if_neg hmiss] at h
      cases hdt : pyIsoOrFallback (pyStrip value) with
      | none => rw [hdt] at h; exact absurd (Option.some.inj (congrArg Prod.snd h)) (by decide)
      | some dt => rw [hdt] at h; exact absurd (congrArg Prod.snd h) (by simp)
  · intro hmiss
    constructor
    · intro hfail
      unfold parse_timestamp_to_utc_iso_z
      rw [if_neg hmiss, (pyIsoOrFallback_none_iff (pyStrip value)).mpr hfail]
    · intro h
      unfold parse_timestamp_to_utc_iso_z at h
      rw [if_neg hmiss] at h
      cases hdt : pyIsoOrFallback (pyStrip value) with
      | none => exact (pyIsoOrFallback_none_iff (pyStrip value)).mp hdt
      | some dt => rw [hdt] at h; exact absurd (congrArg Prod.snd h) (by simp)
  · rcases parse_timestamp_shape value with ⟨u, hu⟩ | hm | hi
    · rw [hu]; simp
    · rw [hm]; simp
    · rw [hi]; simp
  · intro rows
    constructor
    · intro r hr
      obtain ⟨r0, hr0, hfn⟩ := List.mem_filterMap.mp hr
      rcases parse_timestamp_shape r0.raw_timestamp with ⟨u, hu⟩ | hm | hi
      · rw [hu] at hfn
        simp only [] at hfn
        rw [← Option.some.inj hfn]
        rw [hu]
      · rw [hm] at hfn; exact absurd hfn (by simp)
      · rw [hi] at hfn; exact absurd hfn (by simp)
    · intro r hr hnone
      rcases parse_timestamp_shape r.raw_timestamp with ⟨u, hu⟩ | hm | hi
      · refine ⟨u, hu, ?_⟩
        refine List.mem_filterMap.mpr ⟨r, hr, ?_⟩
        rw [hu]
      · rw [hm] at hnone; exact absurd hnone (by simp)
      · rw [hi] at hnone; exact absurd hnone (by simp)

/-- Witness for C7 at a concrete unparseable value. -/
theorem C7_witness :
    (pyFromisoformat (zReplaceCandidate (pyStrip "garbage")) = none ∧
      ∀ f ∈ TIMESTAMP_STRPTIME_FALLBACKS, pyStrptime f (pyStrip "garbage") = none) ↔
      parse_timestamp_to_utc_iso_z "garbage" = (none, some "DROP_TIMESTAMP_INVALID") :=
  (C7_timestamp_classification "garbage").2.1 (by decide)
